import Mathlib

/-!
# httprequest: fluent HTTP request builder

A shallow embedding of `src/httprequest/request.go` together with the parts of the Go
standard library it calls (`net/url` query encoding and parsing, `net/http` header maps,
`strings.Reader`, `ioutil.ReadAll`).  The network client (`heimdall/httpclient.Client`),
`cast.ToString` and `json.Unmarshal` are external collaborators and enter as parameters.

Conventions
* a Go `string` is its byte sequence (`GoString`);
* a Go `map[string][]string` is an association list with pairwise distinct keys;
* a nil pointer or nil interface is `none`;
* the builder is mutated through a pointer receiver: every method takes the state and
  returns the new state, a run-time panic is the `Except.error` result.
-/

namespace httprequest

/-! ## Strings -/

/-- A Go `byte`. -/
abbrev Byte := Fin 256

/-- A Go `string`: an immutable sequence of bytes. -/
abbrev GoString := List Byte

/-- The bytes of an ASCII string literal of the source text. -/
def ascii (s : String) : GoString := s.toList.map (fun c => Fin.ofNat c.toNat)

/-- Go `strings.Cut(s, sep)` for a one-byte separator: the text before the first `sep`,
the text after it, and whether `sep` occurs (`(s, "", false)` when it does not). -/
def cut (sep : Byte) : GoString → GoString × GoString × Bool
  | [] => ([], [], false)
  | c :: s =>
    if c = sep then ([], s, true)
    else ((c :: (cut sep s).1), (cut sep s).2.1, (cut sep s).2.2)

/-- Go's built-in `a < b` on strings: byte-wise lexicographic order. -/
def strLess : GoString → GoString → Bool
  | [], [] => false
  | [], _ :: _ => true
  | _ :: _, [] => false
  | a :: as, b :: bs => if a < b then true else if b < a then false else strLess as bs

/-- Insertion of a string into an ascending list. -/
def insertSorted (k : GoString) : List GoString → List GoString
  | [] => [k]
  | x :: xs => if strLess k x then k :: x :: xs else x :: insertSorted k xs

/-- Go `sort.Strings`: the ascending rearrangement of the list (computed by insertion; the
result of sorting by a total order does not depend on the algorithm). -/
def sortStrings : List GoString → List GoString
  | [] => []
  | k :: ks => insertSorted k (sortStrings ks)

/-! ## Errors -/

/-- Go `error` values that occur in this development. -/
inductive GoError where
  /-- Go `url.EscapeError(s)`: a malformed percent escape. -/
  | EscapeError (s : GoString)
  /-- The error `invalid semicolon separator in query` of `url.ParseQuery`. -/
  | invalidSemicolon
  /-- Any error produced by an external collaborator (transport, body stream, JSON
  decoder), identified by its text. -/
  | external (text : GoString)
  deriving DecidableEq, Repr

/-! ## `map[string][]string` -/

/-- Go `map[string][]string`, the underlying type of `url.Values` and `http.Header`.
Entries are kept in order of first insertion; keys are pairwise distinct. -/
abbrev MultiMap := List (GoString × List GoString)

/-- The two-result lookup `vs, ok := m[k]`. -/
def MultiMap.lookup : MultiMap → GoString → Option (List GoString)
  | [], _ => none
  | (k', vs) :: rest, k => if k' = k then some vs else MultiMap.lookup rest k

/-- The one-result lookup `m[k]`: the nil slice when `k` is absent. -/
def MultiMap.get (m : MultiMap) (k : GoString) : List GoString :=
  (m.lookup k).getD []

/-- The statement `m[k] = append(m[k], v)`. -/
def MultiMap.append : MultiMap → GoString → GoString → MultiMap
  | [], k, v => [(k, [v])]
  | (k', vs) :: rest, k, v =>
    if k' = k then (k', vs ++ [v]) :: rest else (k', vs) :: MultiMap.append rest k v

/-- The keys of the map. -/
def MultiMap.keys (m : MultiMap) : List GoString := m.map Prod.fst

/-! ## `net/url`: query escaping (mode `encodeQueryComponent`) -/

/-- Go `url.shouldEscape(c, encodeQueryComponent)`. -/
def shouldEscape (c : Byte) : Bool :=
  -- §2.3 Unreserved characters (alphanum)
  if (97 ≤ c ∧ c ≤ 122) ∨ (65 ≤ c ∧ c ≤ 90) ∨ (48 ≤ c ∧ c ≤ 57) then false
  -- §2.3 Unreserved characters (mark): - _ . ~
  else if c = 45 ∨ c = 95 ∨ c = 46 ∨ c = 126 then false
  -- §2.2 Reserved characters: $ & + , / : ; = ? @ are all escaped in a query component
  else if c = 36 ∨ c = 38 ∨ c = 43 ∨ c = 44 ∨ c = 47 ∨ c = 58 ∨ c = 59 ∨ c = 61 ∨ c = 63
      ∨ c = 64 then true
  -- Everything else must be escaped.
  else true

/-- Go `const upperhex = "0123456789ABCDEF"`. -/
def upperhex : GoString := ascii "0123456789ABCDEF"

/-- The output of the general loop of `url.escape` for one input byte. -/
def escapeByte (c : Byte) : GoString :=
  if c = 32 then [43]
  else if shouldEscape c then
    [37, upperhex.getD (c >>> 4).val 0, upperhex.getD (c &&& 15).val 0]
  else [c]

/-- Go `url.escape(s, encodeQueryComponent)`, with its two fast paths. -/
def escape (s : GoString) : GoString :=
  let spaceCount := (s.filter (fun c => shouldEscape c && decide (c = 32))).length
  let hexCount := (s.filter (fun c => shouldEscape c && !decide (c = 32))).length
  if spaceCount = 0 ∧ hexCount = 0 then s
  else if hexCount = 0 then s.map (fun c => if c = 32 then 43 else c)
  else (s.map escapeByte).flatten

/-- Go `url.QueryEscape`. -/
def QueryEscape (s : GoString) : GoString := escape s

/-- Go `url.ishex`. -/
def ishex (c : Byte) : Bool :=
  (48 ≤ c ∧ c ≤ 57) ∨ (97 ≤ c ∧ c ≤ 102) ∨ (65 ≤ c ∧ c ≤ 70)

/-- Go `url.unhex`. -/
def unhex (c : Byte) : Byte :=
  if 48 ≤ c ∧ c ≤ 57 then c - 48
  else if 97 ≤ c ∧ c ≤ 102 then c - 97 + 10
  else if 65 ≤ c ∧ c ≤ 70 then c - 65 + 10
  else 0

/-- First loop of `url.unescape(s, encodeQueryComponent)`: the error of the leftmost
malformed percent escape (at most three bytes starting at the `%`), if any. -/
def unescapeCheck : GoString → Option GoError
  | [] => none
  | c :: rest =>
    if c = 37 then
      match rest with
      | a :: b :: rest2 =>
        if ishex a && ishex b then unescapeCheck rest2
        else some (GoError.EscapeError [c, a, b])
      | _ => some (GoError.EscapeError (c :: rest))
    else unescapeCheck rest

/-- Second loop of `url.unescape(s, encodeQueryComponent)`; it runs only on strings that
passed `unescapeCheck`, so the branch of a truncated escape is never taken. -/
def unescapeDecode : GoString → GoString
  | [] => []
  | c :: rest =>
    if c = 37 then
      match rest with
      | a :: b :: rest2 => (unhex a <<< 4 ||| unhex b) :: unescapeDecode rest2
      | _ => []
    else if c = 43 then 32 :: unescapeDecode rest
    else c :: unescapeDecode rest

/-- Go `url.unescape(s, encodeQueryComponent)`. -/
def unescape (s : GoString) : Except GoError GoString :=
  match unescapeCheck s with
  | some e => Except.error e
  | none =>
    let n := (s.filter (fun c => decide (c = 37))).length
    let hasPlus := s.any (fun c => decide (c = 43))
    if n = 0 ∧ hasPlus = false then Except.ok s else Except.ok (unescapeDecode s)

/-- Go `url.QueryUnescape`. -/
def QueryUnescape (s : GoString) : Except GoError GoString := unescape s

/-! ## `net/url`: `Values` -/

/-- Go `url.Values`. -/
abbrev Values := MultiMap

/-- Go `url.Values.Add`. -/
def Values.Add (v : Values) (key value : GoString) : Values := MultiMap.append v key value

/-- The inner loop of `url.Values.Encode` for one key: one `key=value` item per value,
preceded by `&` when the buffer is not empty. -/
def encodeKey (keyEscaped : GoString) (vs : List GoString) (buf : GoString) : GoString :=
  vs.foldl
    (fun buf v => (if buf.length > 0 then buf ++ [38] else buf) ++ keyEscaped ++ [61]
      ++ QueryEscape v)
    buf

/-- Go `url.Values.Encode`: the items of all keys, keys in ascending order. -/
def Values.Encode (v : Values) : GoString :=
  if v.length = 0 then []
  else (sortStrings (MultiMap.keys v)).foldl
    (fun buf k => encodeKey (QueryEscape k) (MultiMap.get v k) buf) []

/-- The loop of Go `url.parseQuery`; `fuel` bounds the number of iterations (each one
removes at least one byte from `query`). -/
def parseQueryLoop : Nat → Values → Option GoError → GoString → Values × Option GoError
  | 0, m, err, _ => (m, err)
  | fuel + 1, m, err, query =>
    if query = [] then (m, err)
    else
      let key := (cut 38 query).1
      let query := (cut 38 query).2.1
      if key.any (fun c => decide (c = 59)) then
        parseQueryLoop fuel m (some GoError.invalidSemicolon) query
      else if key = [] then parseQueryLoop fuel m err query
      else
        let value := (cut 61 key).2.1
        let key := (cut 61 key).1
        match QueryUnescape key with
        | Except.error err1 =>
          parseQueryLoop fuel m (if err = none then some err1 else err) query
        | Except.ok key =>
          match QueryUnescape value with
          | Except.error err1 =>
            parseQueryLoop fuel m (if err = none then some err1 else err) query
          | Except.ok value => parseQueryLoop fuel (MultiMap.append m key value) err query

/-- Go `url.ParseQuery`. -/
def ParseQuery (query : GoString) : Values × Option GoError :=
  parseQueryLoop query.length [] none query

/-! ## `net/textproto`, `net/http`: header maps -/

/-- Go `textproto.validHeaderFieldByte`: the `tchar` bytes of RFC 7230, that is digits,
letters and the marks ``!#$%&'*+-.^_`|~``. -/
def validHeaderFieldByte (c : Byte) : Bool :=
  (48 ≤ c ∧ c ≤ 57) ∨ (65 ≤ c ∧ c ≤ 90) ∨ (97 ≤ c ∧ c ≤ 122)
    ∨ c ∈ [33, 35, 36, 37, 38, 39, 42, 43, 45, 46, 94, 95, 96, 124, 126]

/-- Go `const toLower = 'a' - 'A'`. -/
def toLower : Byte := 32

/-- The rewriting loop of `textproto.canonicalMIMEHeaderKey`: upper case for the first
letter and for each letter after a dash, lower case elsewhere. -/
def canonicalLoop : Bool → GoString → GoString
  | _, [] => []
  | upper, c :: rest =>
    let c2 :=
      if upper = true ∧ 97 ≤ c ∧ c ≤ 122 then c - toLower
      else if upper = false ∧ 65 ≤ c ∧ c ≤ 90 then c + toLower
      else c
    c2 :: canonicalLoop (decide (c2 = 45)) rest

/-- Go `textproto.canonicalMIMEHeaderKey`: a key with a byte that is not a valid header
field byte is returned unchanged. -/
def canonicalMIMEHeaderKey (a : GoString) : GoString :=
  if a.all validHeaderFieldByte then canonicalLoop true a else a

/-- The scan of `textproto.CanonicalMIMEHeaderKey` over the suffix `rest` of `s`. -/
def canonicalScan (s : GoString) : Bool → GoString → GoString
  | _, [] => s
  | upper, c :: rest =>
    if validHeaderFieldByte c = false then s
    else if upper = true ∧ 97 ≤ c ∧ c ≤ 122 then canonicalMIMEHeaderKey s
    else if upper = false ∧ 65 ≤ c ∧ c ≤ 90 then canonicalMIMEHeaderKey s
    else canonicalScan s (decide (c = 45)) rest

/-- Go `textproto.CanonicalMIMEHeaderKey` (used by `http.Header`). -/
def CanonicalMIMEHeaderKey (s : GoString) : GoString := canonicalScan s true s

/-- Go `http.Header`. -/
abbrev Header := MultiMap

/-- Go `http.Header.Add`: appends to the values of the canonical form of `key`. -/
def Header.Add (h : Header) (key value : GoString) : Header :=
  MultiMap.append h (CanonicalMIMEHeaderKey key) value

/-- Go `http.Header.Values`: the values of the canonical form of `key`. -/
def Header.Values (h : Header) (key : GoString) : List GoString :=
  MultiMap.get h (CanonicalMIMEHeaderKey key)

/-- Go `http.Header.Get`: the first value of the canonical form of `key`, or `""`. -/
def Header.Get (h : Header) (key : GoString) : GoString :=
  match MultiMap.get h (CanonicalMIMEHeaderKey key) with
  | [] => []
  | v :: _ => v

/-! ## Readers, responses, transport -/

/-- Go `strings.Reader`: the string and the current reading index. -/
structure Reader where
  s : GoString
  i : Nat
  deriving DecidableEq, Repr

/-- Go `strings.NewReader`. -/
def NewReader (s : GoString) : Reader := { s := s, i := 0 }

/-- Go `ioutil.ReadAll` on a `strings.Reader`: the bytes from the current index on; the
reader is left at the end of its string. -/
def Reader.ReadAll (r : Reader) : GoString × Reader :=
  (r.s.drop r.i, { r with i := max r.i r.s.length })

/-- The body stream of a response (`io.ReadCloser`): the bytes it still delivers and the
error, if any, with which it then ends (`none`: a clean end of stream). -/
structure BodyStream where
  data : GoString
  err : Option GoError
  deriving DecidableEq, Repr

/-- Go `ioutil.ReadAll` on a body stream: the bytes read, the error met, the drained
stream. -/
def BodyStream.ReadAll (b : BodyStream) : GoString × Option GoError × BodyStream :=
  (b.data, b.err, { b with data := [] })

/-- Go `http.Response`, restricted to the fields read in this package and its tests. -/
structure Response where
  StatusCode : Int
  Body : BodyStream
  deriving DecidableEq, Repr

/-- The result pair `(*http.Response, error)` of a client method. -/
structure Reply where
  response : Option Response
  err : Option GoError
  deriving DecidableEq, Repr

/-- Go `heimdall/httpclient.Client`, by the five methods this package calls.  A call may
depend on and change the state `σ` of the outside world; a call that takes a body may
read from the reader it is given and returns the reader as it leaves it. -/
structure Client (σ : Type) where
  Get : σ → GoString → Header → Reply × σ
  Post : σ → GoString → Option Reader → Header → Reply × Option Reader × σ
  Put : σ → GoString → Option Reader → Header → Reply × Option Reader × σ
  Patch : σ → GoString → Option Reader → Header → Reply × Option Reader × σ
  Delete : σ → GoString → Header → Reply × σ

/-! ## `request.go` -/

/-- Go `map[string]V` as the sequence of its entries in the order in which a `range`
loop visits them (any order is possible); keys are pairwise distinct. -/
abbrev GoMap (α : Type) := List (GoString × α)

/-- The struct `httpRequest`; `net` is the state of the outside world seen by `client`. -/
structure httpRequest (σ : Type) where
  client : Client σ
  url : GoString
  headers : Header
  body : Option Reader
  urlParams : Values
  response : Option Response
  err : Option GoError
  net : σ

/-- The struct `Options`. -/
structure Options where
  Timeout : Int
  RetryCount : Int
  deriving DecidableEq, Repr

/-- Function `NewRequest`.  `NewClient none` stands for `httpclient.NewClient()` and
`NewClient (some opt)` for `httpclient.NewClient(WithHTTPTimeout(opt.Timeout),
WithRetryCount(opt.RetryCount))`; the loop over `opts` keeps the client of the last one. -/
def NewRequest {σ : Type} (NewClient : Option Options → Client σ) (net : σ) (url : GoString)
    (opts : List Options) : httpRequest σ :=
  let c :=
    if opts.length = 0 then NewClient none
    else opts.foldl (fun _ opt => NewClient (some opt)) (NewClient none)
  { client := c, url := url, headers := [], body := none, urlParams := [],
    response := none, err := none, net := net }

/-- Method `(*httpRequest).Header`. -/
def httpRequest.Header {σ : Type} (r : httpRequest σ) (name value : GoString) :
    httpRequest σ :=
  { r with headers := Header.Add r.headers name value }

/-- Method `(*httpRequest).Headers`. -/
def httpRequest.Headers {σ : Type} (r : httpRequest σ) (headers : GoMap GoString) :
    httpRequest σ :=
  { r with headers := headers.foldl (fun h kv => Header.Add h kv.1 kv.2) r.headers }

/-- Method `(*httpRequest).UrlParams`; `ToString` is `cast.ToString`. -/
def httpRequest.UrlParams {σ α : Type} (ToString : α → GoString) (r : httpRequest σ)
    (params : GoMap α) : httpRequest σ :=
  let p : Values := params.foldl (fun p kv => Values.Add p kv.1 (ToString kv.2)) []
  { r with urlParams := p }

/-- Method `(*httpRequest).BodyParamsByMap`; `ToString` is `cast.ToString`. -/
def httpRequest.BodyParamsByMap {σ α : Type} (ToString : α → GoString) (r : httpRequest σ)
    (params : GoMap α) : httpRequest σ :=
  let p : Values := params.foldl (fun p kv => Values.Add p kv.1 (ToString kv.2)) []
  { r with body := some (NewReader (Values.Encode p)) }

/-- Method `(*httpRequest).BodyParamsByJson`. -/
def httpRequest.BodyParamsByJson {σ : Type} (r : httpRequest σ) (json : GoString) :
    httpRequest σ :=
  httpRequest.Header { r with body := some (NewReader json) }
    (ascii "Content-Type") (ascii "application/json")

/-- Method `(*httpRequest).buildURL`. -/
def httpRequest.buildURL {σ : Type} (r : httpRequest σ) : GoString :=
  let encodeParams := Values.Encode r.urlParams
  let requestUrl := r.url
  if encodeParams ≠ [] then requestUrl ++ ascii "?" ++ encodeParams else requestUrl

/-- Method `(*httpRequest).Get`. -/
def httpRequest.Get {σ : Type} (r : httpRequest σ) : httpRequest σ :=
  let requestUrl := r.buildURL
  let out := r.client.Get r.net requestUrl r.headers
  { r with response := out.1.response, err := out.1.err, net := out.2 }

/-- Method `(*httpRequest).Post`. -/
def httpRequest.Post {σ : Type} (r : httpRequest σ) : httpRequest σ :=
  let requestUrl := r.buildURL
  let out := r.client.Post r.net requestUrl r.body r.headers
  { r with response := out.1.response, err := out.1.err, body := out.2.1, net := out.2.2 }

/-- Method `(*httpRequest).Put`. -/
def httpRequest.Put {σ : Type} (r : httpRequest σ) : httpRequest σ :=
  let requestUrl := r.buildURL
  let out := r.client.Put r.net requestUrl r.body r.headers
  { r with response := out.1.response, err := out.1.err, body := out.2.1, net := out.2.2 }

/-- Method `(*httpRequest).Delete`. -/
def httpRequest.Delete {σ : Type} (r : httpRequest σ) : httpRequest σ :=
  let requestUrl := r.buildURL
  let out := r.client.Delete r.net requestUrl r.headers
  { r with response := out.1.response, err := out.1.err, net := out.2 }

/-- Method `(*httpRequest).Patch`. -/
def httpRequest.Patch {σ : Type} (r : httpRequest σ) : httpRequest σ :=
  let requestUrl := r.buildURL
  let out := r.client.Patch r.net requestUrl r.body r.headers
  { r with response := out.1.response, err := out.1.err, body := out.2.1, net := out.2.2 }

/-- A run-time panic of the Go program. -/
inductive Panic where
  /-- The panic `invalid memory address or nil pointer dereference`. -/
  | nilPointerDereference
  deriving DecidableEq, Repr

/-- Method `(*httpRequest).Response`. -/
def httpRequest.Response {σ : Type} (r : httpRequest σ) : Option httprequest.Response × Option GoError :=
  (r.response, r.err)

/-- Method `(*httpRequest).ResponseString`: the three results and the builder afterwards (the
stored response is the object the returned pointer refers to, its body now read). -/
def httpRequest.ResponseString {σ : Type} (r : httpRequest σ) :
    Except Panic ((GoString × Option httprequest.Response × Option GoError) × httpRequest σ) :=
  match r.err with
  | some e => Except.ok (([], none, some e), r)
  | none =>
    match r.response with
    | none => Except.error Panic.nilPointerDereference
    | some resp =>
      let read := resp.Body.ReadAll
      let resp2 : httprequest.Response := { resp with Body := read.2.2 }
      let r2 : httpRequest σ := { r with response := some resp2 }
      match read.2.1 with
      | some err => Except.ok (([], some resp2, some err), r2)
      | none => Except.ok ((read.1, some resp2, none), r2)

/-- Method `(*httpRequest).ResponseJson`: the two results, the decoding target and the builder
afterwards.  `Unmarshal body target` is `json.Unmarshal(body, &jsonStruct)`: the target as
the decoder leaves it and the decoder's error. -/
def httpRequest.ResponseJson {σ τ : Type} (Unmarshal : GoString → τ → τ × Option GoError)
    (r : httpRequest σ) (jsonStruct : τ) :
    Except Panic ((Option httprequest.Response × Option GoError) × τ × httpRequest σ) :=
  match r.err with
  | some e => Except.ok ((none, some e), jsonStruct, r)
  | none =>
    match r.response with
    | none => Except.error Panic.nilPointerDereference
    | some resp =>
      let read := resp.Body.ReadAll
      let resp2 : httprequest.Response := { resp with Body := read.2.2 }
      let r2 : httpRequest σ := { r with response := some resp2 }
      match read.2.1 with
      | some err => Except.ok ((some resp2, some err), jsonStruct, r2)
      | none =>
        let dec := Unmarshal read.1 jsonStruct
        Except.ok ((some resp2, dec.2), dec.1, r2)

/-! ## Sequences of calls -/

/-- A call of the public API on a builder. -/
inductive Call (α τ : Type) where
  | Header (name value : GoString)
  | Headers (headers : GoMap GoString)
  | UrlParams (params : GoMap α)
  | BodyParamsByMap (params : GoMap α)
  | BodyParamsByJson (json : GoString)
  | Get
  | Post
  | Put
  | Delete
  | Patch
  | Response
  | ResponseJson (jsonStruct : τ)
  | ResponseString

/-- Whether the call is one of the five verb methods. -/
def Call.isVerb {α τ : Type} : Call α τ → Bool
  | Call.Get => true
  | Call.Post => true
  | Call.Put => true
  | Call.Delete => true
  | Call.Patch => true
  | _ => false

/-- Whether the call is an extractor that reads the response body. -/
def Call.readsBody {α τ : Type} : Call α τ → Bool
  | Call.ResponseJson _ => true
  | Call.ResponseString => true
  | _ => false

/-- The builder after one call, or the panic the call ends in. -/
def step {σ α τ : Type} (ToString : α → GoString)
    (Unmarshal : GoString → τ → τ × Option GoError) (r : httpRequest σ) :
    Call α τ → Except Panic (httpRequest σ)
  | Call.Header name value => Except.ok (r.Header name value)
  | Call.Headers headers => Except.ok (r.Headers headers)
  | Call.UrlParams params => Except.ok (r.UrlParams ToString params)
  | Call.BodyParamsByMap params => Except.ok (r.BodyParamsByMap ToString params)
  | Call.BodyParamsByJson json => Except.ok (r.BodyParamsByJson json)
  | Call.Get => Except.ok r.Get
  | Call.Post => Except.ok r.Post
  | Call.Put => Except.ok r.Put
  | Call.Delete => Except.ok r.Delete
  | Call.Patch => Except.ok r.Patch
  | Call.Response => Except.ok r
  | Call.ResponseJson jsonStruct =>
    match r.ResponseJson Unmarshal jsonStruct with
    | Except.ok out => Except.ok out.2.2
    | Except.error p => Except.error p
  | Call.ResponseString =>
    match r.ResponseString with
    | Except.ok out => Except.ok out.2
    | Except.error p => Except.error p

/-- The builder after a sequence of calls, or the first panic. -/
def run {σ α τ : Type} (ToString : α → GoString)
    (Unmarshal : GoString → τ → τ × Option GoError) :
    httpRequest σ → List (Call α τ) → Except Panic (httpRequest σ)
  | r, [] => Except.ok r
  | r, c :: cs =>
    match step ToString Unmarshal r c with
    | Except.ok r2 => run ToString Unmarshal r2 cs
    | Except.error p => Except.error p

/-- Every body-reading extractor of the sequence comes after a verb call (`executed`
tells whether a verb call precedes the sequence). -/
def verbFirst {α τ : Type} : Bool → List (Call α τ) → Bool
  | _, [] => true
  | executed, c :: cs =>
    (executed || !c.readsBody) && verbFirst (executed || c.isVerb) cs

/-- The transport contract of `net/http`: a reply without an error carries a response. -/
def Reply.sound (p : Reply) : Prop := p.err = none → p.response ≠ none

/-- All five methods of the client honour the transport contract. -/
def Client.sound {σ : Type} (c : Client σ) : Prop :=
  (∀ w u h, (c.Get w u h).1.sound) ∧ (∀ w u b h, (c.Post w u b h).1.sound)
    ∧ (∀ w u b h, (c.Put w u b h).1.sound) ∧ (∀ w u b h, (c.Patch w u b h).1.sound)
    ∧ (∀ w u h, (c.Delete w u h).1.sound)

/-! ## Specification functions for the query string -/

/-- One item `key=value` of a query string, key and value escaped. -/
def queryItem (kv : GoString × GoString) : GoString :=
  QueryEscape kv.1 ++ 61 :: QueryEscape kv.2

/-- The items separated by `&`. -/
def joinItems : List GoString → GoString
  | [] => []
  | [x] => x
  | x :: y :: rest => x ++ 38 :: joinItems (y :: rest)

/-- The key/value pairs of a `Values` map in the order of `Encode`: keys ascending, the
values of one key in their stored order. -/
def Values.pairs (v : Values) : List (GoString × GoString) :=
  (sortStrings (MultiMap.keys v)).flatMap (fun k => (MultiMap.get v k).map (fun x => (k, x)))

/-- The values paired with key `k` in a list of key/value pairs, in list order. -/
def valuesOf (l : List (GoString × GoString)) (k : GoString) : List GoString :=
  (l.filter (fun kv => decide (kv.1 = k))).map Prod.snd

/-- The lookup `x, ok := m[k]` in a Go map given by its entries. -/
def GoMap.lookup {α : Type} : GoMap α → GoString → Option α
  | [], _ => none
  | (k', x) :: rest, k => if k' = k then some x else GoMap.lookup rest k

/-! ## `heimdall/httpclient`: the retry loop of the client `NewRequest` builds -/

/-- Go `strings.Join(texts, ", ")`, the text of a `valkyrie.MultiError`. -/
def joinErrors : List GoString → GoString
  | [] => []
  | [x] => x
  | x :: y :: rest => x ++ ascii ", " ++ joinErrors (y :: rest)

/-- Go `valkyrie.MultiError.HasError`: nil when no error was pushed, else the collected
error. -/
def HasError (errs : List GoString) : Option GoError :=
  if errs.length = 0 then none else some (GoError.external (joinErrors errs))

/-- The loop `for i := 0; i <= c.retryCount; i++` of heimdall `(*Client).Do`, with
`tries` iterations left.  `attempt i` is the outcome of the underlying `http.Client.Do`
at iteration `i` (the text of its error, or its response).  An error is pushed and the
loop goes on; so it does, keeping the response, on a status of 500 or more; any other
response clears the errors and ends the loop.  After the loop the result is the last
response and `multiErr.HasError()`. -/
def retryLoop (attempt : Nat → Except GoString Response) :
    Nat → Nat → Option Response → List GoString → Reply
  | 0, _, response, errs => { response := response, err := HasError errs }
  | tries + 1, i, _, errs =>
    match attempt i with
    | Except.error e => retryLoop attempt tries (i + 1) none (errs ++ [e])
    | Except.ok resp =>
      if resp.StatusCode ≥ 500 then retryLoop attempt tries (i + 1) (some resp) errs
      else { response := some resp, err := HasError [] }

/-- Heimdall `(*Client).Do` for a request that could be created: `retryCount + 1`
iterations of the loop, none at all when `retryCount` is negative. -/
def heimdallDo (retryCount : Int) (attempt : Nat → Except GoString Response) : Reply :=
  retryLoop attempt (retryCount + 1).toNat 0 none []

/-- The client `httpclient.NewClient(...)` returns: retry count 0 by default, else the
one of the options; every method goes through `Do`, which reads a request body to its end
before the loop. -/
def heimdallClient (attempt : Nat → Except GoString Response) (o : Option Options) :
    Client Unit :=
  let retryCount : Int :=
    match o with
    | none => 0
    | some opt => opt.RetryCount
  { Get := fun _ _ _ => (heimdallDo retryCount attempt, ()),
    Post := fun _ _ b _ => (heimdallDo retryCount attempt, b.map (fun rd => rd.ReadAll.2), ()),
    Put := fun _ _ b _ => (heimdallDo retryCount attempt, b.map (fun rd => rd.ReadAll.2), ()),
    Patch := fun _ _ b _ =>
      (heimdallDo retryCount attempt, b.map (fun rd => rd.ReadAll.2), ()),
    Delete := fun _ _ _ => (heimdallDo retryCount attempt, ()) }

/-- A server that answers every attempt with status 200 and body `SUCCESS`. -/
def successServer (_ : Nat) : Except GoString Response :=
  Except.ok { StatusCode := 200, Body := { data := ascii "SUCCESS", err := none } }

/-! ## Concrete collaborators used in examples -/

/-- A transport that answers every request with the reply `p`, consumes nothing of the
body it is given and has no state. -/
def fixedClient (p : Reply) : Client Unit :=
  { Get := fun _ _ _ => (p, ()),
    Post := fun _ _ b _ => (p, b, ()),
    Put := fun _ _ b _ => (p, b, ()),
    Patch := fun _ _ b _ => (p, b, ()),
    Delete := fun _ _ _ => (p, ()) }

/-- The reply of the test servers of `request_test.go`: status 200, body `SUCCESS`. -/
def successReply : Reply :=
  { response := some { StatusCode := 200, Body := { data := ascii "SUCCESS", err := none } },
    err := none }

/-- A reply of a failed transport: no response, a time-out error. -/
def timeoutReply : Reply :=
  { response := none, err := some (GoError.external (ascii "context deadline exceeded")) }

/-- A JSON decoder that rejects every body and leaves the target alone. -/
def rejectAll (_ : GoString) (target : Unit) : Unit × Option GoError :=
  (target, some (GoError.external (ascii "invalid character")))

end httprequest

namespace httprequest

/-! ## Lemmas on `map[string][]string` -/

theorem MultiMap.lookup_append (m : MultiMap) (k v k2 : GoString) :
    MultiMap.lookup (MultiMap.append m k v) k2
      = if k2 = k then some (MultiMap.get m k ++ [v]) else MultiMap.lookup m k2 := by
  induction m with
  | nil =>
    by_cases h : k2 = k
    · simp [MultiMap.append, MultiMap.lookup, MultiMap.get, h]
    · have h2 : ¬ k = k2 := fun e => h e.symm
      simp [MultiMap.append, MultiMap.lookup, h, h2]
  | cons e rest ih =>
    obtain ⟨k1, vs⟩ := e
    by_cases h1 : k1 = k
    · subst h1
      by_cases h : k2 = k1
      · subst h
        simp [MultiMap.append, MultiMap.lookup, MultiMap.get]
      · have h2 : ¬ k1 = k2 := fun e => h e.symm
        simp [MultiMap.append, MultiMap.lookup, h, h2]
    · by_cases h : k2 = k
      · subst h
        have h2 : ¬ k1 = k2 := h1
        simp [MultiMap.append, MultiMap.lookup, MultiMap.get, h2] at ih ⊢
        exact ih
      · by_cases h3 : k1 = k2
        · simp [MultiMap.append, MultiMap.lookup, h1, h, h3]
        · simp [MultiMap.append, MultiMap.lookup, h1, h, h3] at ih ⊢
          exact ih

theorem MultiMap.get_append (m : MultiMap) (k v k2 : GoString) :
    MultiMap.get (MultiMap.append m k v) k2
      = if k2 = k then MultiMap.get m k2 ++ [v] else MultiMap.get m k2 := by
  unfold MultiMap.get
  rw [MultiMap.lookup_append]
  by_cases h : k2 = k
  · subst h
    simp [MultiMap.get]
  · simp [h]

theorem MultiMap.keys_append (m : MultiMap) (k v : GoString) :
    MultiMap.keys (MultiMap.append m k v)
      = if k ∈ MultiMap.keys m then MultiMap.keys m else MultiMap.keys m ++ [k] := by
  induction m with
  | nil => simp [MultiMap.append, MultiMap.keys]
  | cons e rest ih =>
    obtain ⟨k1, vs⟩ := e
    by_cases h1 : k1 = k
    · subst h1
      simp [MultiMap.append, MultiMap.keys]
    · have h2 : ¬ k = k1 := fun e => h1 e.symm
      simp only [MultiMap.keys] at ih
      by_cases h3 : k ∈ List.map Prod.fst rest
      · simp [MultiMap.append, MultiMap.keys, h1, h2, h3, ih]
      · simp [MultiMap.append, MultiMap.keys, h1, h2, h3, ih]

/-! ## Escaping and unescaping -/

theorem flatten_map_singleton (g : Byte → GoString) (f : Byte → Byte) (s : GoString)
    (h : ∀ c ∈ s, g c = [f c]) : (s.map g).flatten = s.map f := by
  induction s with
  | nil => rfl
  | cons c rest ih =>
    have h1 := h c (List.mem_cons_self _ _)
    have h2 := ih (fun d hd => h d (List.mem_cons_of_mem _ hd))
    simp [h1, h2]

set_option maxRecDepth 100000 in
theorem escapeByte_not_escaped : ∀ c : Byte, shouldEscape c = false → escapeByte c = [c] := by
  decide

set_option maxRecDepth 100000 in
theorem escapeByte_space_only :
    ∀ c : Byte, (shouldEscape c && !decide (c = 32)) = false →
      escapeByte c = [if c = 32 then 43 else c] := by
  decide

theorem escape_eq (s : GoString) : escape s = (s.map escapeByte).flatten := by
  unfold escape
  simp only
  split
  · rename_i h
    have hs : ∀ c ∈ s, shouldEscape c = false := by
      intro c hc
      have h1 := h.1
      have h2 := h.2
      rw [List.length_eq_zero, List.filter_eq_nil_iff] at h1 h2
      have a := h1 c hc
      have b := h2 c hc
      cases hse : shouldEscape c
      · rfl
      · exfalso
        by_cases h32 : c = 32
        · subst h32
          simp [hse] at a
        · simp [hse, h32] at b
    rw [flatten_map_singleton escapeByte id s
      (fun c hc => escapeByte_not_escaped c (hs c hc))]
    simp
  · split
    · rename_i h
      rw [List.length_eq_zero, List.filter_eq_nil_iff] at h
      rw [flatten_map_singleton escapeByte (fun c => if c = 32 then 43 else c) s]
      intro c hc
      have a := h c hc
      exact escapeByte_space_only c (by simpa using a)
    · rfl

set_option maxRecDepth 100000 in
theorem escapeByte_hex :
    ∀ c : Byte, shouldEscape c = true → c ≠ 32 →
      escapeByte c = [37, upperhex.getD (c >>> 4).val 0, upperhex.getD (c &&& 15).val 0]
      ∧ ishex (upperhex.getD (c >>> 4).val 0) = true
      ∧ ishex (upperhex.getD (c &&& 15).val 0) = true
      ∧ (unhex (upperhex.getD (c >>> 4).val 0) <<< 4
          ||| unhex (upperhex.getD (c &&& 15).val 0)) = c := by
  decide

set_option maxRecDepth 100000 in
theorem not_escaped_plain :
    ∀ c : Byte, shouldEscape c = false → c ≠ 37 ∧ c ≠ 43 ∧ c ≠ 32 := by
  decide

set_option maxRecDepth 100000 in
theorem escapeByte_no_separator_all :
    ∀ c : Byte, (escapeByte c).all
      (fun b => !decide (b = 38) && !decide (b = 59) && !decide (b = 61)) = true := by
  decide

theorem escapeByte_no_separator (c b : Byte) (hb : b ∈ escapeByte c) :
    b ≠ 38 ∧ b ≠ 59 ∧ b ≠ 61 := by
  have h := List.all_eq_true.mp (escapeByte_no_separator_all c) b hb
  simpa [and_assoc] using h

theorem unescapeDecode_cons (c : Byte) (rest : GoString) (h : c ≠ 37) :
    unescapeDecode (c :: rest)
      = (if c = 43 then 32 else c) :: unescapeDecode rest := by
  rcases rest with _ | ⟨a, _ | ⟨b, r⟩⟩ <;> by_cases h43 : c = 43 <;>
    simp [unescapeDecode, h, h43]

theorem unescapeDecode_percent (a b : Byte) (r : GoString) :
    unescapeDecode (37 :: a :: b :: r) = (unhex a <<< 4 ||| unhex b) :: unescapeDecode r := by
  simp [unescapeDecode]

theorem unescapeCheck_cons (c : Byte) (rest : GoString) (h : c ≠ 37) :
    unescapeCheck (c :: rest) = unescapeCheck rest := by
  rcases rest with _ | ⟨a, _ | ⟨b, r⟩⟩ <;> simp [unescapeCheck, h]

theorem unescapeCheck_percent (a b : Byte) (r : GoString) (ha : ishex a = true)
    (hb : ishex b = true) : unescapeCheck (37 :: a :: b :: r) = unescapeCheck r := by
  simp [unescapeCheck, ha, hb]

theorem unescapeDecode_escapeByte (c : Byte) (rest : GoString) :
    unescapeDecode (escapeByte c ++ rest) = c :: unescapeDecode rest := by
  by_cases h32 : c = 32
  · subst h32
    have e : escapeByte 32 = [43] := by decide
    rw [e]
    simp [unescapeDecode_cons]
  · cases hse : shouldEscape c
    · obtain ⟨h37, h43, _⟩ := not_escaped_plain c hse
      rw [escapeByte_not_escaped c hse]
      simp [unescapeDecode_cons, h37, h43]
    · obtain ⟨e, _, _, hval⟩ := escapeByte_hex c hse h32
      rw [e]
      simp only [List.cons_append, List.nil_append]
      rw [unescapeDecode_percent, hval]

theorem unescapeCheck_escapeByte (c : Byte) (rest : GoString) :
    unescapeCheck (escapeByte c ++ rest) = unescapeCheck rest := by
  by_cases h32 : c = 32
  · subst h32
    have e : escapeByte 32 = [43] := by decide
    rw [e]
    simp [unescapeCheck_cons]
  · cases hse : shouldEscape c
    · obtain ⟨h37, _, _⟩ := not_escaped_plain c hse
      rw [escapeByte_not_escaped c hse]
      simp [unescapeCheck_cons, h37]
    · obtain ⟨e, ha, hb, _⟩ := escapeByte_hex c hse h32
      rw [e]
      simp only [List.cons_append, List.nil_append]
      rw [unescapeCheck_percent _ _ _ ha hb]

theorem unescapeDecode_escape (s : GoString) : unescapeDecode (escape s) = s := by
  rw [escape_eq]
  induction s with
  | nil => rfl
  | cons c rest ih =>
    simp only [List.map_cons, List.flatten_cons]
    rw [unescapeDecode_escapeByte, ih]

theorem unescapeCheck_escape (s : GoString) : unescapeCheck (escape s) = none := by
  rw [escape_eq]
  induction s with
  | nil => rfl
  | cons c rest ih =>
    simp only [List.map_cons, List.flatten_cons]
    rw [unescapeCheck_escapeByte, ih]

theorem unescapeDecode_plain (t : GoString) (h : ∀ c ∈ t, c ≠ 37 ∧ c ≠ 43) :
    unescapeDecode t = t := by
  induction t with
  | nil => rfl
  | cons c rest ih =>
    obtain ⟨h37, h43⟩ := h c (List.mem_cons_self _ _)
    have h2 := ih (fun d hd => h d (List.mem_cons_of_mem _ hd))
    rw [unescapeDecode_cons c rest h37, h2]
    simp [h43]

theorem unescape_eq_decode (t : GoString) (h : unescapeCheck t = none) :
    unescape t = Except.ok (unescapeDecode t) := by
  unfold unescape
  rw [h]
  simp only
  split
  · rename_i hfast
    obtain ⟨hn, hp⟩ := hfast
    rw [List.length_eq_zero, List.filter_eq_nil_iff] at hn
    rw [List.any_eq_false] at hp
    rw [unescapeDecode_plain t]
    intro c hc
    exact ⟨by simpa using hn c hc, by simpa using hp c hc⟩
  · rfl

theorem QueryUnescape_QueryEscape (s : GoString) :
    QueryUnescape (QueryEscape s) = Except.ok s := by
  unfold QueryUnescape QueryEscape
  rw [unescape_eq_decode _ (unescapeCheck_escape s), unescapeDecode_escape]

theorem QueryEscape_no_separator (s : GoString) :
    ∀ b ∈ QueryEscape s, b ≠ 38 ∧ b ≠ 59 ∧ b ≠ 61 := by
  unfold QueryEscape
  rw [escape_eq]
  intro b hb
  simp only [List.mem_flatten, List.mem_map] at hb
  obtain ⟨l, ⟨c, _, hc⟩, hbl⟩ := hb
  subst hc
  exact escapeByte_no_separator c b hbl

/-! ## Parsing an encoded query -/

theorem cut_found (sep : Byte) (a b : GoString) (h : sep ∉ a) :
    cut sep (a ++ sep :: b) = (a, b, true) := by
  induction a with
  | nil => simp [cut]
  | cons c rest ih =>
    have hc : c ≠ sep := fun e => h (by simp [e])
    have hr : sep ∉ rest := fun e => h (List.mem_cons_of_mem _ e)
    simp [cut, hc, ih hr]

theorem cut_absent (sep : Byte) (a : GoString) (h : sep ∉ a) :
    cut sep a = (a, [], false) := by
  induction a with
  | nil => simp [cut]
  | cons c rest ih =>
    have hc : c ≠ sep := fun e => h (by simp [e])
    have hr : sep ∉ rest := fun e => h (List.mem_cons_of_mem _ e)
    simp [cut, hc, ih hr]

theorem queryItem_no_ampersand (kv : GoString × GoString) : (38 : Byte) ∉ queryItem kv := by
  intro h
  simp only [queryItem, List.mem_append, List.mem_cons] at h
  rcases h with h | h | h
  · exact (QueryEscape_no_separator kv.1 38 h).1 rfl
  · exact absurd h (by decide)
  · exact (QueryEscape_no_separator kv.2 38 h).1 rfl

theorem queryItem_no_semicolon (kv : GoString × GoString) :
    (queryItem kv).any (fun c => decide (c = 59)) = false := by
  rw [List.any_eq_false]
  intro c hc
  simp only [queryItem, List.mem_append, List.mem_cons] at hc
  rcases hc with h | h | h
  · simpa using (QueryEscape_no_separator kv.1 c h).2.1
  · subst h; decide
  · simpa using (QueryEscape_no_separator kv.2 c h).2.1

theorem queryItem_ne_nil (kv : GoString × GoString) : queryItem kv ≠ [] := by
  simp [queryItem]

theorem cut_queryItem (kv : GoString × GoString) :
    cut 61 (queryItem kv) = (QueryEscape kv.1, QueryEscape kv.2, true) :=
  cut_found 61 _ _ (fun h => (QueryEscape_no_separator kv.1 61 h).2.2 rfl)

theorem parseQueryLoop_nil (fuel : Nat) (m : Values) (err : Option GoError) :
    parseQueryLoop fuel m err [] = (m, err) := by
  cases fuel <;> simp [parseQueryLoop]

theorem parseQueryLoop_item (fuel : Nat) (m : Values) (err : Option GoError)
    (kv : GoString × GoString) (query rest : GoString)
    (hcut : cut 38 query = (queryItem kv, rest, true) ∨ cut 38 query = (queryItem kv, rest, false))
    (hq : query ≠ []) :
    parseQueryLoop (fuel + 1) m err query
      = parseQueryLoop fuel (MultiMap.append m kv.1 kv.2) err rest := by
  have h1 : (cut 38 query).1 = queryItem kv := by rcases hcut with h | h <;> rw [h]
  have h2 : (cut 38 query).2.1 = rest := by rcases hcut with h | h <;> rw [h]
  rw [parseQueryLoop]
  simp only [hq, if_false, h1, h2, queryItem_no_semicolon, queryItem_ne_nil, cut_queryItem,
    QueryUnescape_QueryEscape, Bool.false_eq_true]

theorem parseQueryLoop_joinItems (l : List (GoString × GoString)) :
    ∀ (fuel : Nat) (m : Values) (err : Option GoError), l.length ≤ fuel →
      parseQueryLoop fuel m err (joinItems (l.map queryItem))
        = (l.foldl (fun m kv => MultiMap.append m kv.1 kv.2) m, err) := by
  induction l with
  | nil => intro fuel m err _; simp [joinItems, parseQueryLoop_nil]
  | cons kv rest ih =>
    intro fuel m err hf
    cases fuel with
    | zero => simp at hf
    | succ f =>
      have hf2 : rest.length ≤ f := by simpa using hf
      cases rest with
      | nil =>
        simp only [List.map_cons, List.map_nil, joinItems, List.foldl_cons, List.foldl_nil]
        rw [parseQueryLoop_item f m err kv (queryItem kv) []
          (Or.inr (cut_absent 38 _ (queryItem_no_ampersand kv))) (queryItem_ne_nil kv)]
        exact parseQueryLoop_nil _ _ _
      | cons kv2 rest2 =>
        have e : joinItems ((kv :: kv2 :: rest2).map queryItem)
            = queryItem kv ++ 38 :: joinItems ((kv2 :: rest2).map queryItem) := by
          simp [joinItems]
        rw [e, parseQueryLoop_item f m err kv _ (joinItems ((kv2 :: rest2).map queryItem))
          (Or.inl (cut_found 38 _ _ (queryItem_no_ampersand kv))) (by simp)]
        rw [ih f _ err hf2]
        simp

theorem joinItems_length (l : List (GoString × GoString)) :
    l.length ≤ (joinItems (l.map queryItem)).length := by
  induction l with
  | nil => simp
  | cons kv rest ih =>
    have h1 : 1 ≤ (queryItem kv).length := by
      simp only [queryItem, List.length_append, List.length_cons]
      omega
    cases rest with
    | nil => simpa [joinItems] using h1
    | cons kv2 rest2 =>
      have e : joinItems ((kv :: kv2 :: rest2).map queryItem)
          = queryItem kv ++ 38 :: joinItems ((kv2 :: rest2).map queryItem) := by
        simp [joinItems]
      rw [e]
      simp only [List.length_append, List.length_cons] at ih ⊢
      omega

theorem ParseQuery_joinItems (l : List (GoString × GoString)) :
    ParseQuery (joinItems (l.map queryItem))
      = (l.foldl (fun m kv => MultiMap.append m kv.1 kv.2) [], none) :=
  parseQueryLoop_joinItems l _ [] none (joinItems_length l)

/-! ## `Encode` writes the items of `Values.pairs` -/

theorem joinItems_pos (l : List GoString) (hl : ∀ x ∈ l, x ≠ []) (hne : l ≠ []) :
    0 < (joinItems l).length := by
  cases l with
  | nil => exact absurd rfl hne
  | cons x rest =>
    have hx : 0 < x.length := List.length_pos.mpr (hl x (List.mem_cons_self _ _))
    cases rest with
    | nil => simpa [joinItems] using hx
    | cons y r =>
      simp only [joinItems, List.length_append, List.length_cons]
      omega

theorem joinItems_snoc (l : List GoString) (it : GoString) (hl : ∀ x ∈ l, x ≠ []) :
    joinItems (l ++ [it])
      = (if (joinItems l).length > 0 then joinItems l ++ [38] else joinItems l) ++ it := by
  induction l with
  | nil => simp [joinItems]
  | cons x rest ih =>
    have hx : 0 < x.length := List.length_pos.mpr (hl x (List.mem_cons_self _ _))
    have hrest : ∀ y ∈ rest, y ≠ [] := fun y hy => hl y (List.mem_cons_of_mem _ hy)
    cases rest with
    | nil =>
      simp [joinItems, hx]
    | cons y r =>
      have hpos := joinItems_pos (y :: r) hrest (by simp)
      have ih2 := ih hrest
      simp only [hpos, if_true, gt_iff_lt] at ih2
      have e1 : joinItems (x :: y :: r ++ [it]) = x ++ 38 :: joinItems (y :: r ++ [it]) := by
        simp [joinItems]
      have e2 : joinItems (x :: y :: r) = x ++ 38 :: joinItems (y :: r) := by
        simp [joinItems]
      have hpos2 : 0 < (joinItems (x :: y :: r)).length := by
        rw [e2]; simp
      simp only [hpos2, if_true, gt_iff_lt]
      rw [e1, ih2, e2]
      simp

theorem encodeKey_joinItems (k : GoString) (vs : List GoString) :
    ∀ l : List GoString, (∀ x ∈ l, x ≠ []) →
      encodeKey (QueryEscape k) vs (joinItems l)
        = joinItems (l ++ vs.map (fun x => queryItem (k, x))) := by
  induction vs with
  | nil => intro l _; simp [encodeKey]
  | cons v rest ih =>
    intro l hl
    have hl2 : ∀ x ∈ l ++ [queryItem (k, v)], x ≠ [] := by
      intro x hx
      rcases List.mem_append.mp hx with h | h
      · exact hl x h
      · rw [List.mem_singleton] at h
        rw [h]; exact queryItem_ne_nil _
    have step : (if (joinItems l).length > 0 then joinItems l ++ [38] else joinItems l)
        ++ QueryEscape k ++ [61] ++ QueryEscape v = joinItems (l ++ [queryItem (k, v)]) := by
      rw [joinItems_snoc l _ hl]
      simp [queryItem]
    have h := ih (l ++ [queryItem (k, v)]) hl2
    simp only [encodeKey] at h ⊢
    simp only [List.foldl_cons, step, h]
    simp

theorem Encode_foldl_joinItems (v : Values) (keys : List GoString) :
    ∀ l : List GoString, (∀ x ∈ l, x ≠ []) →
      keys.foldl (fun buf k => encodeKey (QueryEscape k) (MultiMap.get v k) buf) (joinItems l)
        = joinItems (l ++ (keys.flatMap
            (fun k => (MultiMap.get v k).map (fun x => (k, x)))).map queryItem) := by
  induction keys with
  | nil => intro l _; simp
  | cons k rest ih =>
    intro l hl
    have hl2 : ∀ x ∈ l ++ (MultiMap.get v k).map (fun x => queryItem (k, x)), x ≠ [] := by
      intro x hx
      rcases List.mem_append.mp hx with h | h
      · exact hl x h
      · obtain ⟨y, _, hy⟩ := List.mem_map.mp h
        rw [← hy]; exact queryItem_ne_nil _
    simp only [List.foldl_cons]
    rw [encodeKey_joinItems k _ l hl, ih _ hl2]
    simp [List.flatMap_cons, Function.comp_def]

theorem Encode_eq_joinItems (v : Values) :
    Values.Encode v = joinItems ((Values.pairs v).map queryItem) := by
  unfold Values.Encode Values.pairs
  split
  · rename_i h
    have hv : v = [] := List.length_eq_zero.mp h
    subst hv
    simp [MultiMap.keys, sortStrings, joinItems]
  · have h := Encode_foldl_joinItems v (sortStrings (MultiMap.keys v)) [] (by simp)
    simpa [joinItems] using h

/-- Parsing the encoding of a `Values` map yields its pairs, added one by one. -/
theorem ParseQuery_Encode (v : Values) :
    ParseQuery (Values.Encode v)
      = ((Values.pairs v).foldl (fun m kv => MultiMap.append m kv.1 kv.2) [], none) := by
  rw [Encode_eq_joinItems, ParseQuery_joinItems]

/-! ## The parsed map agrees with the encoded one -/

theorem insertSorted_perm (k : GoString) (l : List GoString) :
    (insertSorted k l).Perm (k :: l) := by
  induction l with
  | nil => exact List.Perm.refl _
  | cons x rest ih =>
    unfold insertSorted
    split
    · exact List.Perm.refl _
    · exact (List.Perm.cons x ih).trans (List.Perm.swap k x rest)

theorem sortStrings_perm (l : List GoString) : (sortStrings l).Perm l := by
  induction l with
  | nil => exact List.Perm.refl _
  | cons k rest ih =>
    exact (insertSorted_perm k (sortStrings rest)).trans (List.Perm.cons k ih)

theorem MultiMap.mem_keys_iff (m : MultiMap) (k : GoString) :
    k ∈ MultiMap.keys m ↔ ∃ vs, MultiMap.lookup m k = some vs := by
  induction m with
  | nil => simp [MultiMap.keys, MultiMap.lookup]
  | cons e rest ih =>
    obtain ⟨k1, vs1⟩ := e
    simp only [MultiMap.keys] at ih
    by_cases h : k1 = k
    · subst h
      simp [MultiMap.keys, MultiMap.lookup]
    · have h2 : ¬ k = k1 := fun e => h e.symm
      simp [MultiMap.keys, MultiMap.lookup, h, h2, ih]

theorem valuesOf_cons (kv : GoString × GoString) (l : List (GoString × GoString))
    (k : GoString) :
    valuesOf (kv :: l) k = if kv.1 = k then kv.2 :: valuesOf l k else valuesOf l k := by
  by_cases h : kv.1 = k <;> simp [valuesOf, List.filter_cons, h]

theorem valuesOf_append (l1 l2 : List (GoString × GoString)) (k : GoString) :
    valuesOf (l1 ++ l2) k = valuesOf l1 k ++ valuesOf l2 k := by
  simp [valuesOf]

theorem valuesOf_map_pair (k1 k : GoString) (vs : List GoString) :
    valuesOf (vs.map (fun x => (k1, x))) k = if k1 = k then vs else [] := by
  induction vs with
  | nil => simp [valuesOf]
  | cons v rest ih =>
    rw [List.map_cons, valuesOf_cons, ih]
    by_cases h : k1 = k <;> simp [h]

theorem lookup_foldl_append (l : List (GoString × GoString)) (k : GoString) :
    ∀ m : MultiMap,
      MultiMap.lookup (l.foldl (fun m kv => MultiMap.append m kv.1 kv.2) m) k
        = if valuesOf l k = [] then MultiMap.lookup m k
          else some (MultiMap.get m k ++ valuesOf l k) := by
  induction l with
  | nil => intro m; simp [valuesOf]
  | cons kv rest ih =>
    intro m
    rw [List.foldl_cons, ih, valuesOf_cons, MultiMap.lookup_append, MultiMap.get_append]
    by_cases h : kv.1 = k
    · have h2 : k = kv.1 := h.symm
      subst h2
      by_cases hr : valuesOf rest kv.1 = [] <;> simp [hr]
    · have h2 : ¬ k = kv.1 := fun e => h e.symm
      simp [h, h2]

theorem valuesOf_flatMap (v : Values) (k : GoString) (ks : List GoString)
    (hnd : ks.Nodup) :
    valuesOf (ks.flatMap (fun k1 => (MultiMap.get v k1).map (fun x => (k1, x)))) k
      = if k ∈ ks then MultiMap.get v k else [] := by
  induction ks with
  | nil => simp [valuesOf]
  | cons k1 rest ih =>
    rw [List.flatMap_cons, valuesOf_append, valuesOf_map_pair, ih (List.nodup_cons.mp hnd).2]
    by_cases h : k1 = k
    · subst h
      have hn : k1 ∉ rest := (List.nodup_cons.mp hnd).1
      simp [hn]
    · have h2 : ¬ k = k1 := fun e => h e.symm
      simp [h, h2]

/-- For a map with distinct keys and no empty value list, adding its pairs one by one to
an empty map gives a map with the same lookups. -/
theorem lookup_pairs_roundtrip (v : Values) (hnd : (MultiMap.keys v).Nodup)
    (hne : ∀ k vs, MultiMap.lookup v k = some vs → vs ≠ []) (k : GoString) :
    MultiMap.lookup ((Values.pairs v).foldl (fun m kv => MultiMap.append m kv.1 kv.2) []) k
      = MultiMap.lookup v k := by
  have hperm := sortStrings_perm (MultiMap.keys v)
  rw [lookup_foldl_append, Values.pairs, valuesOf_flatMap v k _ (hperm.nodup_iff.mpr hnd)]
  by_cases hk : k ∈ MultiMap.keys v
  · obtain ⟨vs, hvs⟩ := (MultiMap.mem_keys_iff v k).mp hk
    have hmem : k ∈ sortStrings (MultiMap.keys v) := hperm.mem_iff.mpr hk
    have hvne := hne k vs hvs
    simp [hmem, MultiMap.get, hvs, hvne, MultiMap.lookup]
  · have hmem : k ∉ sortStrings (MultiMap.keys v) := fun h => hk (hperm.mem_iff.mp h)
    have hnone : MultiMap.lookup v k = none := by
      cases hl : MultiMap.lookup v k with
      | none => rfl
      | some vs => exact absurd ((MultiMap.mem_keys_iff v k).mpr ⟨vs, hl⟩) hk
    simp [hmem, hnone, MultiMap.lookup]

theorem foldl_Add_wellformed {α : Type} (ToString : α → GoString) (params : GoMap α) :
    ∀ acc : Values, (MultiMap.keys acc).Nodup →
      (∀ k vs, MultiMap.lookup acc k = some vs → vs ≠ []) →
      (MultiMap.keys
          (params.foldl (fun p kv => Values.Add p kv.1 (ToString kv.2)) acc)).Nodup
      ∧ (∀ k vs,
          MultiMap.lookup (params.foldl (fun p kv => Values.Add p kv.1 (ToString kv.2)) acc) k
            = some vs → vs ≠ []) := by
  induction params with
  | nil => intro acc h1 h2; exact ⟨h1, h2⟩
  | cons e rest ih =>
    intro acc h1 h2
    apply ih
    · simp only [Values.Add, MultiMap.keys_append]
      by_cases hmem : e.1 ∈ MultiMap.keys acc
      · simpa [hmem] using h1
      · simp only [hmem, if_false]
        rw [List.nodup_append]
        refine ⟨h1, List.nodup_singleton _, ?_⟩
        intro a ha hb
        rw [List.mem_singleton] at hb
        exact hmem (hb ▸ ha)
    · intro k vs hl
      simp only [Values.Add, MultiMap.lookup_append] at hl
      by_cases hk : k = e.1
      · simp only [hk, if_true, Option.some.injEq] at hl
        rw [← hl]; simp
      · simp only [hk, if_false] at hl
        exact h2 k vs hl

theorem valuesOf_GoMap {α : Type} (ToString : α → GoString) (params : GoMap α)
    (hnd : (params.map Prod.fst).Nodup) (k : GoString) :
    valuesOf (params.map (fun kv => (kv.1, ToString kv.2))) k
      = match GoMap.lookup params k with
        | some x => [ToString x]
        | none => [] := by
  induction params with
  | nil => simp [valuesOf, GoMap.lookup]
  | cons e rest ih =>
    obtain ⟨k1, x1⟩ := e
    have hnd2 := List.nodup_cons.mp hnd
    rw [List.map_cons, valuesOf_cons, ih hnd2.2]
    by_cases h : k1 = k
    · subst h
      have hnone : GoMap.lookup rest k1 = none := by
        have hn : k1 ∉ rest.map Prod.fst := hnd2.1
        clear ih hnd hnd2
        induction rest with
        | nil => rfl
        | cons e2 r2 ih2 =>
          obtain ⟨k2, x2⟩ := e2
          have hk : ¬ k2 = k1 := fun e => hn (by simp [e])
          have hr : k1 ∉ r2.map Prod.fst := fun e => hn (by simp [e])
          simp [GoMap.lookup, hk, ih2 hr]
      simp [GoMap.lookup, hnone]
    · simp [GoMap.lookup, h]

theorem lookup_UrlParams {σ α : Type} (ToString : α → GoString) (r : httpRequest σ)
    (params : GoMap α) (hnd : (params.map Prod.fst).Nodup) (k : GoString) :
    MultiMap.lookup (r.UrlParams ToString params).urlParams k
      = (GoMap.lookup params k).map (fun x => [ToString x]) := by
  have e : (r.UrlParams ToString params).urlParams
      = (params.map (fun kv => (kv.1, ToString kv.2))).foldl
          (fun m kv => MultiMap.append m kv.1 kv.2) [] := by
    simp [httpRequest.UrlParams, List.foldl_map, Values.Add]
  rw [e, lookup_foldl_append, valuesOf_GoMap ToString params hnd]
  cases GoMap.lookup params k <;> simp [MultiMap.lookup, MultiMap.get]

/-! ## `sortStrings` sorts -/

theorem strLess_nil_right (a : GoString) : strLess a [] = false := by
  cases a <;> rfl

theorem strLess_cons (x y : Byte) (a b : GoString) :
    strLess (x :: a) (y :: b)
      = if x < y then true else if y < x then false else strLess a b := rfl

theorem strLess_asymm (a : GoString) :
    ∀ b : GoString, strLess a b = true → strLess b a = false := by
  induction a with
  | nil => intro b _; exact strLess_nil_right b
  | cons x as ih =>
    intro b h
    cases b with
    | nil => simp [strLess] at h
    | cons y bs =>
      rw [strLess_cons] at h ⊢
      by_cases hxy : x < y
      · have hyx : ¬ y < x := not_lt_of_gt hxy
        simp [hxy, hyx]
      · by_cases hyx : y < x
        · simp [hxy, hyx] at h
        · simp only [hxy, hyx, if_false] at h ⊢
          exact ih bs h

/-- The order `a ≤ b`, that is `¬ b < a`, is transitive. -/
theorem strLess_le_trans (a : GoString) :
    ∀ b c : GoString, strLess b a = false → strLess c b = false → strLess c a = false := by
  induction a with
  | nil => intro b c _ _; exact strLess_nil_right c
  | cons x as ih =>
    intro b c hab hbc
    cases b with
    | nil => simp [strLess] at hab
    | cons y bs =>
      cases c with
      | nil => simp [strLess] at hbc
      | cons z cs =>
        rw [strLess_cons] at hab hbc ⊢
        by_cases hyx : y < x
        · simp [hyx] at hab
        · by_cases hzy : z < y
          · simp [hzy] at hbc
          · simp only [hyx, hzy, if_false] at hab hbc
            by_cases hxy : x < y
            · have hxz : x < z := lt_of_lt_of_le hxy (not_lt.mp hzy)
              have hzx : ¬ z < x := not_lt_of_gt hxz
              simp [hzx, hxz]
            · by_cases hyz : y < z
              · have hxz : x < z := lt_of_le_of_lt (not_lt.mp hyx) hyz
                have hzx : ¬ z < x := not_lt_of_gt hxz
                simp [hzx, hxz]
              · simp only [hxy, hyz, if_false] at hab hbc
                have exy : x = y := le_antisymm (not_lt.mp hyx) (not_lt.mp hxy)
                have eyz : y = z := le_antisymm (not_lt.mp hzy) (not_lt.mp hyz)
                subst exy eyz
                simp only [lt_irrefl, if_false]
                exact ih bs cs hab hbc

theorem mem_insertSorted (k x : GoString) (l : List GoString) :
    x ∈ insertSorted k l ↔ x = k ∨ x ∈ l := by
  rw [(insertSorted_perm k l).mem_iff, List.mem_cons]

theorem insertSorted_sorted (k : GoString) (l : List GoString)
    (h : l.Pairwise (fun a b => strLess b a = false)) :
    (insertSorted k l).Pairwise (fun a b => strLess b a = false) := by
  induction l with
  | nil => simp [insertSorted]
  | cons x rest ih =>
    obtain ⟨hx, hrest⟩ := List.pairwise_cons.mp h
    unfold insertSorted
    split
    · rename_i hlt
      have hkx : strLess x k = false := strLess_asymm k x hlt
      refine List.pairwise_cons.mpr ⟨?_, h⟩
      intro y hy
      rcases List.mem_cons.mp hy with e | hm
      · rw [e]; exact hkx
      · exact strLess_le_trans k x y hkx (hx y hm)
    · rename_i hnlt
      have hxk : strLess k x = false := by simpa using hnlt
      refine List.pairwise_cons.mpr ⟨?_, ih hrest⟩
      intro y hy
      rcases (mem_insertSorted k y rest).mp hy with e | hm
      · rw [e]; exact hxk
      · exact hx y hm

/-- The result of `sortStrings` is ascending: no element is less than an earlier one. -/
theorem sortStrings_sorted (l : List GoString) :
    (sortStrings l).Pairwise (fun a b => strLess b a = false) := by
  induction l with
  | nil => simp [sortStrings]
  | cons k rest ih => exact insertSorted_sorted k _ ih

/-! ## Lookups in a Go map do not depend on the order of iteration -/

theorem GoMap.lookup_eq_some_iff {α : Type} (m : GoMap α) (hnd : (m.map Prod.fst).Nodup)
    (k : GoString) (x : α) : GoMap.lookup m k = some x ↔ (k, x) ∈ m := by
  induction m with
  | nil => simp [GoMap.lookup]
  | cons e rest ih =>
    obtain ⟨k1, x1⟩ := e
    have hnd2 := List.nodup_cons.mp hnd
    have ih2 := ih hnd2.2
    by_cases h : k1 = k
    · subst h
      have hn : ∀ y, (k1, y) ∉ rest := by
        intro y hy
        exact hnd2.1 (List.mem_map.mpr ⟨(k1, y), hy, rfl⟩)
      simp only [GoMap.lookup, if_true, Option.some.injEq, List.mem_cons, Prod.mk.injEq,
        true_and]
      constructor
      · intro e; exact Or.inl e.symm
      · intro e
        rcases e with e | e
        · exact e.symm
        · exact absurd e (hn x)
    · have h2 : ¬ k = k1 := fun e => h e.symm
      simp [GoMap.lookup, h, h2, ih2]

theorem GoMap.lookup_perm {α : Type} (m m2 : GoMap α) (hp : m2.Perm m)
    (hnd : (m.map Prod.fst).Nodup) (k : GoString) :
    GoMap.lookup m2 k = GoMap.lookup m k := by
  have hnd2 : (m2.map Prod.fst).Nodup := ((hp.map Prod.fst).nodup_iff).mpr hnd
  cases h : GoMap.lookup m k with
  | some x =>
    exact (GoMap.lookup_eq_some_iff m2 hnd2 k x).mpr
      (hp.mem_iff.mpr ((GoMap.lookup_eq_some_iff m hnd k x).mp h))
  | none =>
    cases h2 : GoMap.lookup m2 k with
    | none => rfl
    | some y =>
      have hm := (GoMap.lookup_eq_some_iff m hnd k y).mpr
        (hp.mem_iff.mp ((GoMap.lookup_eq_some_iff m2 hnd2 k y).mp h2))
      rw [h] at hm
      exact absurd hm (by simp)

/-! ## Keys after `UrlParams` -/

theorem keys_foldl_Add {α : Type} (ToString : α → GoString) (params : GoMap α)
    (acc : Values) :
    MultiMap.keys (params.foldl (fun p kv => Values.Add p kv.1 (ToString kv.2)) acc)
      ⊆ MultiMap.keys acc ++ params.map Prod.fst := by
  induction params generalizing acc with
  | nil => simp
  | cons e rest ih =>
    intro k hk
    have h := ih (Values.Add acc e.1 (ToString e.2)) hk
    simp only [Values.Add, MultiMap.keys_append] at h
    by_cases hmem : e.1 ∈ MultiMap.keys acc
    · simp only [hmem, if_true] at h
      simp only [List.map_cons, List.mem_append, List.mem_cons] at h ⊢
      tauto
    · simp only [hmem, if_false] at h
      simp only [List.map_cons, List.mem_append, List.mem_cons, List.mem_singleton] at h ⊢
      tauto

/-! ## Non-empty parameter sets have a non-empty encoding -/

theorem mem_keys_foldl_Add {α : Type} (ToString : α → GoString) (params : GoMap α)
    (k : GoString) :
    ∀ acc : Values, k ∈ MultiMap.keys acc →
      k ∈ MultiMap.keys (params.foldl (fun p kv => Values.Add p kv.1 (ToString kv.2)) acc) := by
  induction params with
  | nil => intro acc h; exact h
  | cons e rest ih =>
    intro acc h
    apply ih
    simp only [Values.Add, MultiMap.keys_append]
    by_cases hmem : e.1 ∈ MultiMap.keys acc
    · simpa [hmem] using h
    · simp only [hmem, if_false, List.mem_append]
      exact Or.inl h

theorem Encode_UrlParams_ne_nil {σ α : Type} (ToString : α → GoString) (r : httpRequest σ)
    (params : GoMap α) (hne : params ≠ []) :
    Values.Encode (r.UrlParams ToString params).urlParams ≠ [] := by
  intro henc
  cases params with
  | nil => exact hne rfl
  | cons e rest =>
    have hwf := foldl_Add_wellformed ToString (e :: rest) [] (by simp [MultiMap.keys])
      (by intro k vs h; simp [MultiMap.lookup] at h)
    have hkey : e.1 ∈ MultiMap.keys (r.UrlParams ToString (e :: rest)).urlParams := by
      simp only [httpRequest.UrlParams, List.foldl_cons]
      apply mem_keys_foldl_Add
      simp [Values.Add, MultiMap.append, MultiMap.keys]
    obtain ⟨vs, hvs⟩ := (MultiMap.mem_keys_iff _ _).mp hkey
    have hparse := ParseQuery_Encode (r.UrlParams ToString (e :: rest)).urlParams
    rw [henc] at hparse
    have hnil : ParseQuery [] = ([], none) := rfl
    rw [hnil] at hparse
    have hround := lookup_pairs_roundtrip (r.UrlParams ToString (e :: rest)).urlParams
      hwf.1 hwf.2 e.1
    rw [← (Prod.mk.inj hparse).1, hvs] at hround
    simp [MultiMap.lookup] at hround

/-! ## Runs of call sequences -/

theorem step_ok {σ α τ : Type} (ToString : α → GoString)
    (Unmarshal : GoString → τ → τ × Option GoError) (r : httpRequest σ) (c : Call α τ)
    (executed : Bool) (hs : r.client.sound)
    (hinv : executed = true → r.err ≠ none ∨ r.response ≠ none)
    (hc : (executed || !c.readsBody) = true) :
    ∃ r2, step ToString Unmarshal r c = Except.ok r2 ∧ r2.client = r.client
      ∧ ((executed || c.isVerb) = true → r2.err ≠ none ∨ r2.response ≠ none) := by
  obtain ⟨hGet, hPost, hPut, hPatch, hDelete⟩ := hs
  have verb : ∀ p : Reply, p.sound → p.err ≠ none ∨ p.response ≠ none := by
    intro p hp
    by_cases h : p.err = none
    · exact Or.inr (hp h)
    · exact Or.inl h
  cases c with
  | Header name value => exact ⟨_, rfl, rfl, by simpa [Call.isVerb] using hinv⟩
  | Headers headers => exact ⟨_, rfl, rfl, by simpa [Call.isVerb] using hinv⟩
  | UrlParams params => exact ⟨_, rfl, rfl, by simpa [Call.isVerb] using hinv⟩
  | BodyParamsByMap params => exact ⟨_, rfl, rfl, by simpa [Call.isVerb] using hinv⟩
  | BodyParamsByJson json => exact ⟨_, rfl, rfl, by simpa [Call.isVerb] using hinv⟩
  | Get => exact ⟨_, rfl, rfl, fun _ => verb _ (hGet _ _ _)⟩
  | Post => exact ⟨_, rfl, rfl, fun _ => verb _ (hPost _ _ _ _)⟩
  | Put => exact ⟨_, rfl, rfl, fun _ => verb _ (hPut _ _ _ _)⟩
  | Delete => exact ⟨_, rfl, rfl, fun _ => verb _ (hDelete _ _ _)⟩
  | Patch => exact ⟨_, rfl, rfl, fun _ => verb _ (hPatch _ _ _ _)⟩
  | Response => exact ⟨_, rfl, rfl, by simpa [Call.isVerb] using hinv⟩
  | ResponseJson jsonStruct =>
    have hex : executed = true := by simpa [Call.readsBody] using hc
    cases herr : r.err with
    | some e =>
      refine ⟨r, ?_, rfl, fun _ => Or.inl (by simp [herr])⟩
      simp [step, httpRequest.ResponseJson, herr]
    | none =>
      cases hresp : r.response with
      | none =>
        rcases hinv hex with h | h
        · exact absurd herr h
        · exact absurd hresp h
      | some resp =>
        cases hread : resp.Body.ReadAll.2.1 with
        | some e2 =>
          refine ⟨{ r with response := some { resp with Body := resp.Body.ReadAll.2.2 } },
            ?_, rfl, fun _ => Or.inr (by simp)⟩
          simp only [step, httpRequest.ResponseJson, herr, hresp, hread]
        | none =>
          refine ⟨{ r with response := some { resp with Body := resp.Body.ReadAll.2.2 } },
            ?_, rfl, fun _ => Or.inr (by simp)⟩
          simp only [step, httpRequest.ResponseJson, herr, hresp, hread]
  | ResponseString =>
    have hex : executed = true := by simpa [Call.readsBody] using hc
    cases herr : r.err with
    | some e =>
      refine ⟨r, ?_, rfl, fun _ => Or.inl (by simp [herr])⟩
      simp [step, httpRequest.ResponseString, herr]
    | none =>
      cases hresp : r.response with
      | none =>
        rcases hinv hex with h | h
        · exact absurd herr h
        · exact absurd hresp h
      | some resp =>
        cases hread : resp.Body.ReadAll.2.1 with
        | some e2 =>
          refine ⟨{ r with response := some { resp with Body := resp.Body.ReadAll.2.2 } },
            ?_, rfl, fun _ => Or.inr (by simp)⟩
          simp only [step, httpRequest.ResponseString, herr, hresp, hread]
        | none =>
          refine ⟨{ r with response := some { resp with Body := resp.Body.ReadAll.2.2 } },
            ?_, rfl, fun _ => Or.inr (by simp)⟩
          simp only [step, httpRequest.ResponseString, herr, hresp, hread]

theorem run_ok {σ α τ : Type} (ToString : α → GoString)
    (Unmarshal : GoString → τ → τ × Option GoError) (calls : List (Call α τ)) :
    ∀ (r : httpRequest σ) (executed : Bool), r.client.sound →
      (executed = true → r.err ≠ none ∨ r.response ≠ none) →
      verbFirst executed calls = true →
      ∃ r2, run ToString Unmarshal r calls = Except.ok r2 := by
  induction calls with
  | nil => intro r _ _ _ _; exact ⟨r, rfl⟩
  | cons c cs ih =>
    intro r executed hs hinv hvf
    simp only [verbFirst, Bool.and_eq_true] at hvf
    obtain ⟨r2, h1, h2, h3⟩ := step_ok ToString Unmarshal r c executed hs hinv hvf.1
    obtain ⟨r3, h4⟩ := ih r2 (executed || c.isVerb) (h2 ▸ hs) h3 hvf.2
    exact ⟨r3, by simp only [run, h1, h4]⟩

theorem NewRequest_client {σ : Type} (NewClient : Option Options → Client σ) (net : σ)
    (url : GoString) (opts : List Options) :
    ∃ o, (NewRequest NewClient net url opts).client = NewClient o := by
  have key : ∀ (l : List Options) (c0 : Client σ), (∃ o, c0 = NewClient o) →
      ∃ o, l.foldl (fun _ opt => NewClient (some opt)) c0 = NewClient o := by
    intro l
    induction l with
    | nil => intro c0 h; exact h
    | cons x xs ih => intro c0 _; exact ih _ ⟨some x, rfl⟩
  by_cases h : opts.length = 0
  · exact ⟨none, by simp [NewRequest, h]⟩
  · obtain ⟨o, ho⟩ := key opts (NewClient none) ⟨none, rfl⟩
    exact ⟨o, by simp only [NewRequest, h, if_false]; exact ho⟩

theorem fixedClient_sound (p : Reply) (h : p.sound) : (fixedClient p).sound :=
  ⟨fun _ _ _ => h, fun _ _ _ _ => h, fun _ _ _ _ => h, fun _ _ _ _ => h, fun _ _ _ => h⟩

theorem HasError_eq_none (errs : List GoString) (h : HasError errs = none) : errs = [] := by
  unfold HasError at h
  split at h
  · rename_i hl
    exact List.length_eq_zero.mp hl
  · simp at h

theorem retryLoop_sound (attempt : Nat → Except GoString Response) (tries : Nat) :
    ∀ (i : Nat) (response : Option Response) (errs : List GoString),
      (0 < tries ∨ (errs = [] → response ≠ none)) →
      (retryLoop attempt tries i response errs).sound := by
  induction tries with
  | zero =>
    intro i response errs h herr
    rcases h with h | h
    · exact absurd h (Nat.lt_irrefl 0)
    · exact h (HasError_eq_none errs herr)
  | succ n ih =>
    intro i response errs _
    unfold retryLoop
    cases attempt i with
    | error e =>
      exact ih (i + 1) none (errs ++ [e]) (Or.inr (fun h => absurd h (by simp)))
    | ok resp =>
      simp only
      split
      · exact ih (i + 1) (some resp) errs (Or.inr (fun _ => by simp))
      · intro _
        simp

theorem heimdallDo_sound (retryCount : Int) (attempt : Nat → Except GoString Response)
    (h : 0 ≤ retryCount) : (heimdallDo retryCount attempt).sound := by
  unfold heimdallDo
  exact retryLoop_sound attempt _ 0 none [] (Or.inl (by omega))

/-- With a retry count that is not negative the heimdall client honours the transport
contract. -/
theorem heimdallClient_sound (attempt : Nat → Except GoString Response) (opt : Options)
    (h : 0 ≤ opt.RetryCount) : (heimdallClient attempt (some opt)).sound :=
  ⟨fun _ _ _ => heimdallDo_sound _ _ h, fun _ _ _ _ => heimdallDo_sound _ _ h,
    fun _ _ _ _ => heimdallDo_sound _ _ h, fun _ _ _ _ => heimdallDo_sound _ _ h,
    fun _ _ _ => heimdallDo_sound _ _ h⟩

theorem ResponseString_ok_iff {σ : Type} (r : httpRequest σ) :
    (∃ out, r.ResponseString = Except.ok out) ↔ (r.err ≠ none ∨ r.response ≠ none) := by
  constructor
  · intro h
    obtain ⟨out, hout⟩ := h
    cases herr : r.err with
    | some e => exact Or.inl (by simp)
    | none =>
      cases hresp : r.response with
      | some resp => exact Or.inr (by simp)
      | none => simp [httpRequest.ResponseString, herr, hresp] at hout
  · intro h
    cases herr : r.err with
    | some e => exact ⟨_, by simp only [httpRequest.ResponseString, herr]; rfl⟩
    | none =>
      cases hresp : r.response with
      | none =>
        rcases h with h | h
        · exact absurd herr h
        · exact absurd hresp h
      | some resp =>
        cases hread : resp.Body.ReadAll.2.1 with
        | some e2 => exact ⟨_, by simp only [httpRequest.ResponseString, herr, hresp, hread]; rfl⟩
        | none => exact ⟨_, by simp only [httpRequest.ResponseString, herr, hresp, hread]; rfl⟩

theorem ResponseJson_ok_iff {σ τ : Type} (Unmarshal : GoString → τ → τ × Option GoError)
    (r : httpRequest σ) (jsonStruct : τ) :
    (∃ out, r.ResponseJson Unmarshal jsonStruct = Except.ok out)
      ↔ (r.err ≠ none ∨ r.response ≠ none) := by
  constructor
  · intro h
    obtain ⟨out, hout⟩ := h
    cases herr : r.err with
    | some e => exact Or.inl (by simp)
    | none =>
      cases hresp : r.response with
      | some resp => exact Or.inr (by simp)
      | none => simp [httpRequest.ResponseJson, herr, hresp] at hout
  · intro h
    cases herr : r.err with
    | some e => exact ⟨_, by simp only [httpRequest.ResponseJson, herr]; rfl⟩
    | none =>
      cases hresp : r.response with
      | none =>
        rcases h with h | h
        · exact absurd herr h
        · exact absurd hresp h
      | some resp =>
        cases hread : resp.Body.ReadAll.2.1 with
        | some e2 => exact ⟨_, by simp only [httpRequest.ResponseJson, herr, hresp, hread]; rfl⟩
        | none => exact ⟨_, by simp only [httpRequest.ResponseJson, herr, hresp, hread]; rfl⟩

/-! ## C1: URL composition -/

/-- C1: a builder made by `NewRequest` (parameters never set), and any builder whose
parameter set is empty, composes its base URL unchanged; after `UrlParams(params)` the
composed URL is the base URL when `params` is empty and `base + "?" + Encode(set)`
otherwise, so it equals the base URL exactly when `params` is empty; the set with the
empty key and the empty value gives `base + "?="`. -/
theorem buildURL_base_or_base_query {σ α : Type} (ToString : α → GoString)
    (NewClient : Option Options → Client σ) (net : σ) (url : GoString)
    (opts : List Options) (r : httpRequest σ) (params : GoMap α) :
    (NewRequest NewClient net url opts).buildURL = url
    ∧ ({ r with urlParams := [] } : httpRequest σ).buildURL = r.url
    ∧ (r.UrlParams ToString params).buildURL
        = (if params.isEmpty then r.url
           else r.url ++ ascii "?" ++ Values.Encode (r.UrlParams ToString params).urlParams)
    ∧ ((r.UrlParams ToString params).buildURL = r.url ↔ params.isEmpty = true)
    ∧ (r.UrlParams (fun s : GoString => s) [([], [])]).buildURL = r.url ++ ascii "?=" := by
  have h2 : (r.UrlParams ToString params).buildURL
      = (if params.isEmpty then r.url
         else r.url ++ ascii "?" ++ Values.Encode (r.UrlParams ToString params).urlParams) := by
    cases params with
    | nil => simp [httpRequest.buildURL, httpRequest.UrlParams, Values.Encode]
    | cons e rest =>
      have hne := Encode_UrlParams_ne_nil ToString r (e :: rest) (by simp)
      have hurl : (r.UrlParams ToString (e :: rest)).url = r.url := rfl
      simp only [httpRequest.buildURL, hne, ne_eq, not_false_eq_true, if_true, hurl,
        List.isEmpty_cons, Bool.false_eq_true, if_false]
  refine ⟨by simp [NewRequest, httpRequest.buildURL, Values.Encode],
    by simp [httpRequest.buildURL, Values.Encode], h2, ?_, ?_⟩
  · rw [h2]
    cases params with
    | nil => simp
    | cons e rest =>
      simp only [List.isEmpty_cons, Bool.false_eq_true, if_false, iff_false]
      intro h
      have hl := congrArg List.length h
      simp only [List.length_append] at hl
      have h1 : (ascii "?").length = 1 := by decide
      omega
  · have e0 : (r.UrlParams (fun s : GoString => s) [([], [])]).urlParams = [([], [[]])] :=
      rfl
    have e : Values.Encode (r.UrlParams (fun s : GoString => s) [([], [])]).urlParams
        = [61] := by
      rw [e0]; decide
    have hurl : (r.UrlParams (fun s : GoString => s) [([], [])]).url = r.url := rfl
    have hq : ascii "?=" = ascii "?" ++ [61] := by decide
    simp only [httpRequest.buildURL, e, hurl, hq]
    simp

/-! ## C2: verb dispatch -/

/-- C2: `Get` and `Delete` call the transport with the composed URL and the headers only,
so their outcome is the same whatever body `b` the builder holds, also a body set by
`BodyParamsByMap` or `BodyParamsByJson`; `Post`, `Put` and `Patch` hand the transport the
body that is currently configured. -/
theorem verbs_pass_body_only_for_Post_Put_Patch {σ α : Type} (ToString : α → GoString)
    (r : httpRequest σ) (b : Option Reader) (params : GoMap α) (json : GoString) :
    ({ r with body := b } : httpRequest σ).Get.Response
        = ((r.client.Get r.net r.buildURL r.headers).1.response,
           (r.client.Get r.net r.buildURL r.headers).1.err)
    ∧ ({ r with body := b } : httpRequest σ).Delete.Response
        = ((r.client.Delete r.net r.buildURL r.headers).1.response,
           (r.client.Delete r.net r.buildURL r.headers).1.err)
    ∧ (r.BodyParamsByMap ToString params).Get.Response = r.Get.Response
    ∧ (r.BodyParamsByMap ToString params).Delete.Response = r.Delete.Response
    ∧ (r.BodyParamsByJson json).Get.Response
        = (r.Header (ascii "Content-Type") (ascii "application/json")).Get.Response
    ∧ (r.BodyParamsByJson json).Delete.Response
        = (r.Header (ascii "Content-Type") (ascii "application/json")).Delete.Response
    ∧ r.Post.Response
        = ((r.client.Post r.net r.buildURL r.body r.headers).1.response,
           (r.client.Post r.net r.buildURL r.body r.headers).1.err)
    ∧ r.Put.Response
        = ((r.client.Put r.net r.buildURL r.body r.headers).1.response,
           (r.client.Put r.net r.buildURL r.body r.headers).1.err)
    ∧ r.Patch.Response
        = ((r.client.Patch r.net r.buildURL r.body r.headers).1.response,
           (r.client.Patch r.net r.buildURL r.body r.headers).1.err) :=
  ⟨rfl, rfl, rfl, rfl, rfl, rfl, rfl, rfl, rfl⟩

/-! ## C3, C4, C5: extractors -/

/-- C3: on a fresh builder, when the transport answers the verb's request (the URL given
to `NewRequest`, no headers, no body) with status `s`, a fully readable body `b` and no
error, the verb followed by `ResponseString` returns `b`, the stored response (status `s`,
its body now read) and no error.  One conjunct per verb. -/
theorem verb_then_ResponseString {σ : Type} (NewClient : Option Options → Client σ)
    (net : σ) (url : GoString) (opts : List Options) (s : Int) (b : GoString) :
    let r := NewRequest NewClient net url opts
    let answer : Reply :=
      { response := some { StatusCode := s, Body := { data := b, err := none } },
        err := none }
    let read : httprequest.Response := { StatusCode := s, Body := { data := [], err := none } }
    ((r.client.Get net url []).1 = answer →
        r.Get.ResponseString
          = Except.ok ((b, some read, none), { r.Get with response := some read }))
    ∧ ((r.client.Post net url none []).1 = answer →
        r.Post.ResponseString
          = Except.ok ((b, some read, none), { r.Post with response := some read }))
    ∧ ((r.client.Put net url none []).1 = answer →
        r.Put.ResponseString
          = Except.ok ((b, some read, none), { r.Put with response := some read }))
    ∧ ((r.client.Delete net url []).1 = answer →
        r.Delete.ResponseString
          = Except.ok ((b, some read, none), { r.Delete with response := some read }))
    ∧ ((r.client.Patch net url none []).1 = answer →
        r.Patch.ResponseString
          = Except.ok ((b, some read, none), { r.Patch with response := some read })) := by
  have hurl : (NewRequest NewClient net url opts).buildURL = url := by
    simp [NewRequest, httpRequest.buildURL, Values.Encode]
  intro r answer read
  refine ⟨?_, ?_, ?_, ?_, ?_⟩
  · intro h
    have h2 : (r.client.Get r.net r.buildURL r.headers).1 = answer := by
      rw [hurl]; exact h
    simp [httpRequest.ResponseString, httpRequest.Get, h2, answer, read,
      BodyStream.ReadAll]
  · intro h
    have h2 : (r.client.Post r.net r.buildURL r.body r.headers).1 = answer := by
      rw [hurl]; exact h
    simp [httpRequest.ResponseString, httpRequest.Post, h2, answer, read,
      BodyStream.ReadAll]
  · intro h
    have h2 : (r.client.Put r.net r.buildURL r.body r.headers).1 = answer := by
      rw [hurl]; exact h
    simp [httpRequest.ResponseString, httpRequest.Put, h2, answer, read,
      BodyStream.ReadAll]
  · intro h
    have h2 : (r.client.Delete r.net r.buildURL r.headers).1 = answer := by
      rw [hurl]; exact h
    simp [httpRequest.ResponseString, httpRequest.Delete, h2, answer, read,
      BodyStream.ReadAll]
  · intro h
    have h2 : (r.client.Patch r.net r.buildURL r.body r.headers).1 = answer := by
      rw [hurl]; exact h
    simp [httpRequest.ResponseString, httpRequest.Patch, h2, answer, read,
      BodyStream.ReadAll]

/-- C3, at the servers of `request_test.go` (status 200, body `SUCCESS`): every premise
holds and every verb followed by `ResponseString` yields `SUCCESS` with status 200. -/
theorem verb_then_ResponseString_witness :
    ((fixedClient successReply).Post () (ascii "http://127.0.0.1") none []).1
        = successReply
    ∧ (((NewRequest (fun _ => fixedClient successReply) () (ascii "http://127.0.0.1")
          []).Post.ResponseString).toOption.map Prod.fst)
        = some (ascii "SUCCESS",
            some { StatusCode := 200, Body := { data := [], err := none } }, none) :=
  ⟨rfl, by
    rw [(verb_then_ResponseString (fun _ => fixedClient successReply) ()
      (ascii "http://127.0.0.1") [] 200 (ascii "SUCCESS")).2.1 rfl]
    rfl⟩

/-- C4: with a stored error `e`, `ResponseString` returns the empty string, no response
and `e`, and `ResponseJson` returns no response and `e`; the builder (hence the body of
whatever response is stored) and the decoding target are left as they were: nothing was
read and nothing decoded. -/
theorem extractors_return_stored_error {σ τ : Type}
    (Unmarshal : GoString → τ → τ × Option GoError) (r : httpRequest σ) (e : GoError)
    (jsonStruct : τ) (h : r.err = some e) :
    r.ResponseString = Except.ok (([], none, some e), r)
    ∧ r.ResponseJson Unmarshal jsonStruct = Except.ok ((none, some e), jsonStruct, r) := by
  simp [httpRequest.ResponseString, httpRequest.ResponseJson, h]

/-- C4, at a builder whose `Get` timed out. -/
theorem extractors_return_stored_error_witness :
    (NewRequest (fun _ => fixedClient timeoutReply) () (ascii "https://www.baidu.com")
        [{ Timeout := 1000, RetryCount := 0 }]).Get.err
      = some (GoError.external (ascii "context deadline exceeded"))
    ∧ ((NewRequest (fun _ => fixedClient timeoutReply) () (ascii "https://www.baidu.com")
        [{ Timeout := 1000, RetryCount := 0 }]).Get.ResponseString).toOption.map Prod.fst
      = some ([], none, some (GoError.external (ascii "context deadline exceeded"))) :=
  ⟨rfl, by
    rw [(extractors_return_stored_error rejectAll
      (NewRequest (fun _ => fixedClient timeoutReply) () (ascii "https://www.baidu.com")
        [{ Timeout := 1000, RetryCount := 0 }]).Get
      (GoError.external (ascii "context deadline exceeded")) () rfl).1]
    rfl⟩

/-- C5: with no stored error and a stored response whose body reads fully as `b`, when
the decoder rejects `b` for the target with error `e`, `ResponseJson` returns `e` together
with the stored response (same status code, body now read), not an absent response. -/
theorem ResponseJson_decode_error_keeps_response {σ τ : Type}
    (Unmarshal : GoString → τ → τ × Option GoError) (r : httpRequest σ)
    (resp : httprequest.Response) (b : GoString) (e : GoError) (jsonStruct : τ)
    (herr : r.err = none) (hresp : r.response = some resp)
    (hbody : resp.Body = { data := b, err := none })
    (hdec : (Unmarshal b jsonStruct).2 = some e) :
    ∃ resp2 : httprequest.Response,
      resp2.StatusCode = resp.StatusCode
      ∧ r.ResponseJson Unmarshal jsonStruct
          = Except.ok ((some resp2, some e), (Unmarshal b jsonStruct).1,
              { r with response := some resp2 }) := by
  refine ⟨{ resp with Body := { data := [], err := none } }, rfl, ?_⟩
  simp [httpRequest.ResponseJson, herr, hresp, hbody, hdec, BodyStream.ReadAll]

/-- C5, at a `Get` answered with status 200 and a body the decoder rejects: no stored
error, the response stored, its body fully readable, the decoder failing, and
`ResponseJson` returning the decoder's error with a response of status 200. -/
theorem ResponseJson_decode_error_keeps_response_witness :
    (NewRequest (fun _ => fixedClient successReply) () (ascii "http://127.0.0.1")
        []).Get.err = none
    ∧ (NewRequest (fun _ => fixedClient successReply) () (ascii "http://127.0.0.1")
        []).Get.response
        = some { StatusCode := 200, Body := { data := ascii "SUCCESS", err := none } }
    ∧ (rejectAll (ascii "SUCCESS") ()).2 = some (GoError.external (ascii "invalid character"))
    ∧ ∃ resp2 : httprequest.Response,
      resp2.StatusCode = 200
      ∧ (NewRequest (fun _ => fixedClient successReply) () (ascii "http://127.0.0.1")
            []).Get.ResponseJson rejectAll ()
          = Except.ok ((some resp2, some (GoError.external (ascii "invalid character"))),
              (),
              { (NewRequest (fun _ => fixedClient successReply) ()
                  (ascii "http://127.0.0.1") []).Get with response := some resp2 }) :=
  ⟨rfl, rfl, rfl,
    ResponseJson_decode_error_keeps_response rejectAll
      (NewRequest (fun _ => fixedClient successReply) () (ascii "http://127.0.0.1") []).Get
      { StatusCode := 200, Body := { data := ascii "SUCCESS", err := none } }
      (ascii "SUCCESS") (GoError.external (ascii "invalid character")) () rfl rfl rfl rfl⟩

/-! ## C6: `Header` -/

/-- C6, as the claim states it, fails: `Header("x-id", "1")` on a fresh builder stores
nothing under the name `x-id` itself and changes the value sequence of another name,
`X-Id`, from empty to `["1"]`. -/
theorem Header_other_name_counterexample :
    ascii "X-Id" ≠ ascii "x-id"
    ∧ MultiMap.get
        ((NewRequest (fun _ => fixedClient successReply) () (ascii "http://127.0.0.1")
          []).Header (ascii "x-id") (ascii "1")).headers (ascii "x-id") = []
    ∧ Header.Values
        (NewRequest (fun _ => fixedClient successReply) () (ascii "http://127.0.0.1")
          []).headers (ascii "X-Id") = []
    ∧ Header.Values
        ((NewRequest (fun _ => fixedClient successReply) () (ascii "http://127.0.0.1")
          []).Header (ascii "x-id") (ascii "1")).headers (ascii "X-Id") = [ascii "1"] := by
  decide

/-- C6, amended: header names are matched by their canonical MIME form.  After
`Header(name, value)` the value sequence of every name `other` with the same canonical
form as `name` (in particular of `name` itself) is its previous sequence with `value`
appended at the end, and the sequence of every name with another canonical form is
unchanged; two calls with the same name append two values. -/
theorem Header_appends_to_canonical_name {σ : Type} (r : httpRequest σ)
    (name value value2 other : GoString) :
    Header.Values (r.Header name value).headers other
      = (if CanonicalMIMEHeaderKey other = CanonicalMIMEHeaderKey name
          then Header.Values r.headers other ++ [value]
          else Header.Values r.headers other)
    ∧ Header.Values (r.Header name value).headers name
        = Header.Values r.headers name ++ [value]
    ∧ Header.Values ((r.Header name value).Header name value2).headers name
        = Header.Values r.headers name ++ [value, value2] := by
  have h : ∀ (q : httpRequest σ) (n v o : GoString),
      Header.Values (q.Header n v).headers o
        = (if CanonicalMIMEHeaderKey o = CanonicalMIMEHeaderKey n
            then Header.Values q.headers o ++ [v]
            else Header.Values q.headers o) := by
    intro q n v o
    simp [httpRequest.Header, Header.Add, Header.Values, MultiMap.get_append]
  refine ⟨h r name value other, ?_, ?_⟩
  · rw [h]; simp
  · rw [h, h]; simp

/-! ## C7: `UrlParams` replaces the set -/

/-- C7: `UrlParams(m1)` followed by `UrlParams(m2)` leaves the builder exactly as
`UrlParams(m2)` alone does, and the resulting parameter set is made of the entries of
`m2` and of nothing else: under every key it holds the string forms of the values `m2`
pairs with that key (one value, the string form of `m2[k]`, for each key `k` of a map
with distinct keys; nothing for a key `m2` does not have, also when `m1` has it).  Every
key of the set is a key of `m2`; base URL, headers and body are those of the builder
before the call.  The resulting set does not depend on the order in which the `range`
loop visits `m2` either: visiting its entries in another order `m2b` gives a set with
the same lookups. -/
theorem UrlParams_replaces_whole_set {σ α β : Type} (ToString1 : α → GoString)
    (ToString2 : β → GoString) (r : httpRequest σ) (m1 : GoMap α) (m2 : GoMap β) :
    (r.UrlParams ToString1 m1).UrlParams ToString2 m2 = r.UrlParams ToString2 m2
    ∧ (∀ k : GoString,
        MultiMap.lookup ((r.UrlParams ToString1 m1).UrlParams ToString2 m2).urlParams k
          = (if valuesOf (m2.map (fun kv => (kv.1, ToString2 kv.2))) k = [] then none
             else some (valuesOf (m2.map (fun kv => (kv.1, ToString2 kv.2))) k)))
    ∧ ((m2.map Prod.fst).Nodup → ∀ k : GoString,
        MultiMap.lookup ((r.UrlParams ToString1 m1).UrlParams ToString2 m2).urlParams k
          = (GoMap.lookup m2 k).map (fun x => [ToString2 x]))
    ∧ MultiMap.keys ((r.UrlParams ToString1 m1).UrlParams ToString2 m2).urlParams
        ⊆ m2.map Prod.fst
    ∧ (r.UrlParams ToString2 m2).url = r.url
    ∧ (r.UrlParams ToString2 m2).headers = r.headers
    ∧ (r.UrlParams ToString2 m2).body = r.body
    ∧ (∀ m2b : GoMap β, m2b.Perm m2 → (m2.map Prod.fst).Nodup → ∀ k : GoString,
        MultiMap.lookup ((r.UrlParams ToString1 m1).UrlParams ToString2 m2b).urlParams k
          = MultiMap.lookup (r.UrlParams ToString2 m2).urlParams k) := by
  refine ⟨rfl, ?_, ?_, ?_, rfl, rfl, rfl, ?_⟩
  · intro k
    have e : ((r.UrlParams ToString1 m1).UrlParams ToString2 m2).urlParams
        = (m2.map (fun kv => (kv.1, ToString2 kv.2))).foldl
            (fun m kv => MultiMap.append m kv.1 kv.2) [] := by
      simp [httpRequest.UrlParams, List.foldl_map, Values.Add]
    rw [e, lookup_foldl_append]
    simp [MultiMap.lookup, MultiMap.get]
  · intro hnd k
    exact lookup_UrlParams ToString2 _ m2 hnd k
  · have h := keys_foldl_Add ToString2 m2 []
    simpa [httpRequest.UrlParams, MultiMap.keys] using h
  · intro m2b hperm hnd k
    have hnd2 : (m2b.map Prod.fst).Nodup := ((hperm.map Prod.fst).nodup_iff).mpr hnd
    rw [lookup_UrlParams ToString2 _ m2b hnd2, lookup_UrlParams ToString2 r m2 hnd,
      GoMap.lookup_perm m2 m2b hperm hnd]

/-- C7, at `m1 = {"a": "1", "b": "2"}` and `m2 = {"c": "3", "d": "4"}`: after both calls
the set has `c ↦ ["3"]` and no key `a`, and `c` has the same value whether `m2` is
visited as `c, d` or as `d, c`. -/
theorem UrlParams_replaces_whole_set_witness :
    [(ascii "d", ascii "4"), (ascii "c", ascii "3")].Perm
        [(ascii "c", ascii "3"), (ascii "d", ascii "4")]
    ∧ ([(ascii "c", ascii "3"), (ascii "d", ascii "4")].map Prod.fst).Nodup
    ∧ MultiMap.lookup
        (((NewRequest (fun _ => fixedClient successReply) () (ascii "http://h/p")
            []).UrlParams (fun s : GoString => s)
              [(ascii "a", ascii "1"), (ascii "b", ascii "2")]).UrlParams
            (fun s : GoString => s)
              [(ascii "c", ascii "3"), (ascii "d", ascii "4")]).urlParams (ascii "c")
        = some [ascii "3"]
    ∧ MultiMap.lookup
        (((NewRequest (fun _ => fixedClient successReply) () (ascii "http://h/p")
            []).UrlParams (fun s : GoString => s)
              [(ascii "a", ascii "1"), (ascii "b", ascii "2")]).UrlParams
            (fun s : GoString => s)
              [(ascii "c", ascii "3"), (ascii "d", ascii "4")]).urlParams (ascii "a")
        = none
    ∧ MultiMap.lookup
        (((NewRequest (fun _ => fixedClient successReply) () (ascii "http://h/p")
            []).UrlParams (fun s : GoString => s)
              [(ascii "a", ascii "1"), (ascii "b", ascii "2")]).UrlParams
            (fun s : GoString => s)
              [(ascii "d", ascii "4"), (ascii "c", ascii "3")]).urlParams (ascii "c")
        = MultiMap.lookup
            ((NewRequest (fun _ => fixedClient successReply) () (ascii "http://h/p")
              []).UrlParams (fun s : GoString => s)
                [(ascii "c", ascii "3"), (ascii "d", ascii "4")]).urlParams (ascii "c") :=
  ⟨List.Perm.swap _ _ _, by decide,
    (UrlParams_replaces_whole_set (fun s : GoString => s) (fun s : GoString => s)
      (NewRequest (fun _ => fixedClient successReply) () (ascii "http://h/p") [])
      [(ascii "a", ascii "1"), (ascii "b", ascii "2")]
      [(ascii "c", ascii "3"), (ascii "d", ascii "4")]).2.2.1 (by decide) (ascii "c"),
    (UrlParams_replaces_whole_set (fun s : GoString => s) (fun s : GoString => s)
      (NewRequest (fun _ => fixedClient successReply) () (ascii "http://h/p") [])
      [(ascii "a", ascii "1"), (ascii "b", ascii "2")]
      [(ascii "c", ascii "3"), (ascii "d", ascii "4")]).2.2.1 (by decide) (ascii "a"),
    (UrlParams_replaces_whole_set (fun s : GoString => s) (fun s : GoString => s)
      (NewRequest (fun _ => fixedClient successReply) () (ascii "http://h/p") [])
      [(ascii "a", ascii "1"), (ascii "b", ascii "2")]
      [(ascii "c", ascii "3"), (ascii "d", ascii "4")]).2.2.2.2.2.2.2
      [(ascii "d", ascii "4"), (ascii "c", ascii "3")] (List.Perm.swap _ _ _) (by decide)
      (ascii "c")⟩

/-! ## C8: `BodyParamsByJson` -/

/-- C8, as the claim states it, fails: on a builder that already carries
`Content-Type: text/plain`, after `BodyParamsByJson("{}")` the request has the two values
`text/plain`, `application/json`, and its `Content-Type` header (`Header.Get`, the first
value) is still `text/plain`. -/
theorem BodyParamsByJson_ContentType_counterexample :
    Header.Values
        (((NewRequest (fun _ => fixedClient successReply) () (ascii "http://127.0.0.1")
            []).Header (ascii "Content-Type") (ascii "text/plain")).BodyParamsByJson
              (ascii "\x7b\x7d")).headers (ascii "Content-Type")
      = [ascii "text/plain", ascii "application/json"]
    ∧ Header.Get
        (((NewRequest (fun _ => fixedClient successReply) () (ascii "http://127.0.0.1")
            []).Header (ascii "Content-Type") (ascii "text/plain")).BodyParamsByJson
              (ascii "\x7b\x7d")).headers (ascii "Content-Type")
      ≠ ascii "application/json" := by
  decide

/-- C8, amended: after `BodyParamsByJson(s)` the body is a fresh reader that yields
exactly the bytes of `s` (whatever body was configured before), and `application/json` is
appended to the values of `Content-Type`; the `Content-Type` header of the request (its
first value) is `application/json` when no value was present before and the earlier first
value otherwise. -/
theorem BodyParamsByJson_sets_body_and_appends_ContentType {σ : Type} (r : httpRequest σ)
    (s : GoString) :
    (r.BodyParamsByJson s).body = some (NewReader s)
    ∧ (NewReader s).ReadAll.1 = s
    ∧ Header.Values (r.BodyParamsByJson s).headers (ascii "Content-Type")
        = Header.Values r.headers (ascii "Content-Type") ++ [ascii "application/json"]
    ∧ Header.Get (r.BodyParamsByJson s).headers (ascii "Content-Type")
        = (match Header.Values r.headers (ascii "Content-Type") with
            | [] => ascii "application/json"
            | v :: _ => v) := by
  have hv : Header.Values (r.BodyParamsByJson s).headers (ascii "Content-Type")
      = Header.Values r.headers (ascii "Content-Type") ++ [ascii "application/json"] := by
    simp [httpRequest.BodyParamsByJson, httpRequest.Header, Header.Add, Header.Values,
      MultiMap.get_append]
  refine ⟨rfl, by simp [NewReader, Reader.ReadAll], hv, ?_⟩
  have hg : ∀ h : Header, Header.Get h (ascii "Content-Type")
      = (match Header.Values h (ascii "Content-Type") with
          | [] => []
          | v :: _ => v) := fun h => rfl
  rw [hg, hv]
  cases Header.Values r.headers (ascii "Content-Type") <;> rfl

/-! ## C9: round trip of the query string -/

/-- C9: for a parameter map with pairwise distinct keys and a base URL without `?`, the
part of the composed URL after `?` parses (`url.ParseQuery`) without error to a map that
has, for every key `k`, exactly what `params` has: nothing when `k` is not a key of
`params`, and the one-element list of the string form of its value when it is. -/
theorem query_string_roundtrip {σ α : Type} (ToString : α → GoString) (r : httpRequest σ)
    (params : GoMap α) (hbase : (63 : Byte) ∉ r.url)
    (hkeys : (params.map Prod.fst).Nodup) :
    (ParseQuery (cut 63 (r.UrlParams ToString params).buildURL).2.1).2 = none
    ∧ ∀ k : GoString,
        MultiMap.lookup (ParseQuery (cut 63 (r.UrlParams ToString params).buildURL).2.1).1 k
          = (GoMap.lookup params k).map (fun x => [ToString x]) := by
  have hq : (cut 63 (r.UrlParams ToString params).buildURL).2.1
      = Values.Encode (r.UrlParams ToString params).urlParams := by
    have hurl : (r.UrlParams ToString params).url = r.url := rfl
    have h63 : ascii "?" = [63] := by decide
    unfold httpRequest.buildURL
    simp only [hurl, h63]
    split
    · rw [List.append_assoc, List.singleton_append, cut_found 63 _ _ hbase]
    · rename_i h
      rw [cut_absent 63 _ hbase]
      simp only [ne_eq, not_not] at h
      exact h.symm
  have hwf := foldl_Add_wellformed ToString params [] (by simp [MultiMap.keys])
    (by intro k vs h; simp [MultiMap.lookup] at h)
  rw [hq, ParseQuery_Encode]
  refine ⟨rfl, fun k => ?_⟩
  have hround := lookup_pairs_roundtrip (r.UrlParams ToString params).urlParams
    hwf.1 hwf.2 k
  simp only []
  rw [hround, lookup_UrlParams ToString r params hkeys]

/-- C9, at the parameters `{"b c": "x&y", "a": "1"}` on `http://h/p`: the composed URL
is `http://h/p?a=1&b+c=x%26y`, and its query parses back to `b c ↦ ["x&y"]`. -/
theorem query_string_roundtrip_witness :
    (63 : Byte) ∉ ascii "http://h/p"
    ∧ ([(ascii "b c", ascii "x&y"), (ascii "a", ascii "1")].map Prod.fst).Nodup
    ∧ ((NewRequest (fun _ => fixedClient successReply) () (ascii "http://h/p") []).UrlParams
          (fun s : GoString => s)
          [(ascii "b c", ascii "x&y"), (ascii "a", ascii "1")]).buildURL
        = ascii "http://h/p?a=1&b+c=x%26y"
    ∧ MultiMap.lookup
        (ParseQuery (cut 63
          ((NewRequest (fun _ => fixedClient successReply) () (ascii "http://h/p")
              []).UrlParams (fun s : GoString => s)
            [(ascii "b c", ascii "x&y"), (ascii "a", ascii "1")]).buildURL).2.1).1
        (ascii "b c")
      = some [ascii "x&y"] :=
  ⟨by decide, by decide, by decide,
    (query_string_roundtrip (fun s : GoString => s)
      (NewRequest (fun _ => fixedClient successReply) () (ascii "http://h/p") [])
      [(ascii "b c", ascii "x&y"), (ascii "a", ascii "1")] (by decide) (by decide)).2
      (ascii "b c")⟩

/-! ## C10: panics -/

/-- C10, as the claim states it, fails at two inputs.  On a fresh builder, before any
verb method, `ResponseString` and `ResponseJson` find no stored error, dereference the
absent response and panic.  On a builder made with `Options{RetryCount: -1}` the retry
loop of the client never runs, `Get` stores neither a response nor an error, and
`ResponseString` called after `Get` panics in the same way. -/
theorem extractor_without_response_counterexample :
    (NewRequest (heimdallClient successServer) () (ascii "http://127.0.0.1")
        []).ResponseString = Except.error Panic.nilPointerDereference
    ∧ (NewRequest (heimdallClient successServer) () (ascii "http://127.0.0.1")
        []).ResponseJson rejectAll () = Except.error Panic.nilPointerDereference
    ∧ run (fun s : GoString => s) rejectAll
        (NewRequest (heimdallClient successServer) () (ascii "http://127.0.0.1") [])
        [Call.ResponseString] = Except.error Panic.nilPointerDereference
    ∧ (NewRequest (heimdallClient successServer) () (ascii "http://127.0.0.1")
        [{ Timeout := 1000, RetryCount := -1 }]).Get.Response = (none, none)
    ∧ (NewRequest (heimdallClient successServer) () (ascii "http://127.0.0.1")
        [{ Timeout := 1000, RetryCount := -1 }]).Get.ResponseString
        = Except.error Panic.nilPointerDereference
    ∧ verbFirst false ([Call.Get, Call.ResponseString] : List (Call GoString Unit)) = true
    ∧ run (fun s : GoString => s) rejectAll
        (NewRequest (heimdallClient successServer) () (ascii "http://127.0.0.1")
          [{ Timeout := 1000, RetryCount := -1 }])
        [Call.Get, Call.ResponseString] = Except.error Panic.nilPointerDereference :=
  ⟨rfl, rfl, rfl, rfl, rfl, rfl, rfl⟩

/-- C10, amended: `ResponseString` and `ResponseJson` return a result, instead of
dereferencing an absent response, exactly when the builder stores an error or a response.
Hence, when the client the builder was made with honours the transport contract (a reply
without an error carries a response) and every call of `ResponseString` or `ResponseJson`
comes after a verb call, no call of a sequence of public API calls on a builder made by
`NewRequest` panics: the whole sequence runs to a final builder state. -/
theorem no_panic_when_verb_first {σ α τ : Type} (ToString : α → GoString)
    (Unmarshal : GoString → τ → τ × Option GoError)
    (NewClient : Option Options → Client σ) (net : σ) (url : GoString)
    (opts : List Options) (calls : List (Call α τ)) (r : httpRequest σ) (jsonStruct : τ) :
    ((∃ out, r.ResponseString = Except.ok out) ↔ (r.err ≠ none ∨ r.response ≠ none))
    ∧ ((∃ out, r.ResponseJson Unmarshal jsonStruct = Except.ok out)
        ↔ (r.err ≠ none ∨ r.response ≠ none))
    ∧ ((NewRequest NewClient net url opts).client.sound → verbFirst false calls = true →
        ∃ r2, run ToString Unmarshal (NewRequest NewClient net url opts) calls
          = Except.ok r2) :=
  ⟨ResponseString_ok_iff r, ResponseJson_ok_iff Unmarshal r jsonStruct,
    fun hsound hfirst => run_ok ToString Unmarshal calls _ false hsound (by simp) hfirst⟩

/-- C10, amended, at a builder made with `Options{RetryCount: 2}` and a sequence that
configures, posts, and calls both extractors (one of them twice): the client honours the
contract, every extractor comes after the verb, and the sequence runs to the end. -/
theorem no_panic_when_verb_first_witness :
    (NewRequest (heimdallClient successServer) () (ascii "http://127.0.0.1")
        [{ Timeout := 1000, RetryCount := 2 }]).client.sound
    ∧ verbFirst false
        ([Call.Header (ascii "a") (ascii "b"), Call.BodyParamsByJson (ascii "\x7b\x7d"),
          Call.Response, Call.Post, Call.ResponseString, Call.ResponseJson (),
          Call.ResponseString] : List (Call GoString Unit)) = true
    ∧ ∃ r2, run (fun s : GoString => s) rejectAll
        (NewRequest (heimdallClient successServer) () (ascii "http://127.0.0.1")
          [{ Timeout := 1000, RetryCount := 2 }])
        [Call.Header (ascii "a") (ascii "b"), Call.BodyParamsByJson (ascii "\x7b\x7d"),
          Call.Response, Call.Post, Call.ResponseString, Call.ResponseJson (),
          Call.ResponseString] = Except.ok r2 :=
  ⟨heimdallClient_sound successServer { Timeout := 1000, RetryCount := 2 } (by decide),
    by decide,
    (no_panic_when_verb_first (fun s : GoString => s) rejectAll
      (heimdallClient successServer) () (ascii "http://127.0.0.1")
      [{ Timeout := 1000, RetryCount := 2 }] _
      (NewRequest (heimdallClient successServer) () (ascii "http://127.0.0.1") [])
      ()).2.2
      (heimdallClient_sound successServer { Timeout := 1000, RetryCount := 2 } (by decide))
      (by decide)⟩

end httprequest
